import Mathlib

/-!
Shallow embedding of the input and UI subsystems of the
Game_Project_21_Engine_Platform repository:
`engine/input_manager.py`, `engine/ui_manager.py`, `engine/ui_element.py`,
`engine/ui_label.py`, `engine/ui_button.py`.

Modelling conventions:
* Python dictionaries that the code only reads and writes pointwise are
  modelled as functions into `Option`; dictionaries the code iterates over
  (`UIManager.layers`, the `persisted_input["bind"]` list, config dicts)
  are modelled as insertion-ordered lists.
* Python callables are opaque tokens (`Callback`) carrying an identity
  (Python `==` on function objects is identity) and an invocability flag
  (the result of `callable(x)`); these are the only observations the
  engine source ever makes of a callback besides invoking it.
* Invocation has no effect on the embedded state (callbacks are external
  to the two managers); functions that invoke callbacks additionally
  return the list of callbacks they invoked, in order.
* `InputManager.action_to_mouse` mixes key types at runtime
  (`map_action_to_mouse` stores an `int` key, `is_action_active` looks up
  a `str` key), so that dictionary is modelled over an untyped value type
  `PyVal`.
-/

/-- A Python callable value: compared by identity, queried with `callable`. -/
structure Callback where
  id : Nat
  invocable : Bool
deriving DecidableEq

/-- An untyped Python dictionary key or value: the engine stores both
integers (device codes) and strings (action names) in `action_to_mouse`. -/
inductive PyVal
| int (i : Int)
| str (s : String)
deriving DecidableEq

/-- Python truthiness of a `PyVal` (`0` and the empty string are falsy). -/
def PyVal.truthy : PyVal → Bool
| .int i => i != 0
| .str s => s != ""

/-- `d[k] = v` on a dictionary modelled as a function into `Option`. -/
def fset {K V : Type} [DecidableEq K] (d : K → Option V) (k : K) (v : V) : K → Option V :=
  fun k' => if k' = k then some v else d k'

/-- `d[k] = v` on a boolean-valued dictionary (`key_state`, `mouse_state`);
the dictionary's `get(k, False)` default is the function's value. -/
def bset {K : Type} [DecidableEq K] (d : K → Bool) (k : K) (v : Bool) : K → Bool :=
  fun k' => if k' = k then v else d k'

/-- One record of `persisted_input["bind"]`, as appended by the `bind_*`
methods; a dictionary key that a record does not carry is `none`. -/
structure BindRecord where
  key : Option Int := none
  button : Option Int := none
  callback : Callback
  global : Bool
deriving DecidableEq

/-- A `{"key": ..., "mouse": ...}` dictionary: the shape of both the values
of `persisted_input["map"]` and the values of a config's `map` entry. -/
structure MapRecord where
  key : Option Int := none
  mouse : Option Int := none
deriving DecidableEq

/-- One entry of a config's `bind` list. -/
structure ConfigBind where
  key : Option Int := none
  button : Option Int := none
  callback : Callback
  global : Bool := false
deriving DecidableEq

/-- A declarative config for `InputManager.load_config`.  `map` models a
Python dict iterated in insertion order (its keys are pairwise distinct). -/
structure Config where
  bind : List ConfigBind := []
  map : List (String × MapRecord) := []

/-- The mutable state of an `InputManager` (its `__init__` attributes).
`persisted_input` is split into its two fixed keys. -/
structure IMState where
  key_state : Int → Bool
  mouse_state : PyVal → Bool
  local_key_down_callbacks : Int → Option Callback
  local_key_up_callbacks : Int → Option Callback
  local_mouse_down_callbacks : Int → Option Callback
  local_mouse_up_callbacks : Int → Option Callback
  global_key_down_callbacks : Int → Option Callback
  global_key_up_callbacks : Int → Option Callback
  global_mouse_down_callbacks : Int → Option Callback
  global_mouse_up_callbacks : Int → Option Callback
  action_to_key : String → Option Int
  action_to_mouse : PyVal → Option PyVal
  persisted_input_bind : List BindRecord
  persisted_input_map : String → Option MapRecord

/-- The state built by `InputManager.__init__` (all dictionaries empty). -/
def initIM : IMState where
  key_state := fun _ => false
  mouse_state := fun _ => false
  local_key_down_callbacks := fun _ => none
  local_key_up_callbacks := fun _ => none
  local_mouse_down_callbacks := fun _ => none
  local_mouse_up_callbacks := fun _ => none
  global_key_down_callbacks := fun _ => none
  global_key_up_callbacks := fun _ => none
  global_mouse_down_callbacks := fun _ => none
  global_mouse_up_callbacks := fun _ => none
  action_to_key := fun _ => none
  action_to_mouse := fun _ => none
  persisted_input_bind := []
  persisted_input_map := fun _ => none

/-- `InputManager.bind_key_down`. -/
def bind_key_down (key : Int) (callback : Callback) (global_ : Bool) (s : IMState) : IMState :=
  let s1 :=
    if global_ then
      { s with global_key_down_callbacks := fset s.global_key_down_callbacks key callback }
    else
      { s with local_key_down_callbacks := fset s.local_key_down_callbacks key callback }
  { s1 with persisted_input_bind :=
      s1.persisted_input_bind ++ [{ key := some key, callback := callback, global := global_ }] }

/-- `InputManager.bind_key_up`. -/
def bind_key_up (key : Int) (callback : Callback) (global_ : Bool) (s : IMState) : IMState :=
  let s1 :=
    if global_ then
      { s with global_key_up_callbacks := fset s.global_key_up_callbacks key callback }
    else
      { s with local_key_up_callbacks := fset s.local_key_up_callbacks key callback }
  { s1 with persisted_input_bind :=
      s1.persisted_input_bind ++ [{ key := some key, callback := callback, global := global_ }] }

/-- `InputManager.bind_mouse_down`. -/
def bind_mouse_down (button : Int) (callback : Callback) (global_ : Bool) (s : IMState) : IMState :=
  let s1 :=
    if global_ then
      { s with global_mouse_down_callbacks := fset s.global_mouse_down_callbacks button callback }
    else
      { s with local_mouse_down_callbacks := fset s.local_mouse_down_callbacks button callback }
  { s1 with persisted_input_bind :=
      s1.persisted_input_bind ++ [{ button := some button, callback := callback, global := global_ }] }

/-- `InputManager.bind_mouse_up`. -/
def bind_mouse_up (button : Int) (callback : Callback) (global_ : Bool) (s : IMState) : IMState :=
  let s1 :=
    if global_ then
      { s with global_mouse_up_callbacks := fset s.global_mouse_up_callbacks button callback }
    else
      { s with local_mouse_up_callbacks := fset s.local_mouse_up_callbacks button callback }
  { s1 with persisted_input_bind :=
      s1.persisted_input_bind ++ [{ button := some button, callback := callback, global := global_ }] }

/-- `InputManager.map_action_to_key`: registers `action_to_key[action] = key`
and persists `persisted_input["map"][action] = {"key": key}`. -/
def map_action_to_key (key : Int) (action : String) (s : IMState) : IMState :=
  { s with
    action_to_key := fset s.action_to_key action key
    persisted_input_map := fset s.persisted_input_map action { key := some key } }

/-- `InputManager.map_action_to_mouse`: registers
`action_to_mouse[button] = action` (an `int` key with a `str` value — note
the direction) and persists `persisted_input["map"][action] = {"mouse": button}`. -/
def map_action_to_mouse (button : Int) (action : String) (s : IMState) : IMState :=
  { s with
    action_to_mouse := fset s.action_to_mouse (PyVal.int button) (PyVal.str action)
    persisted_input_map := fset s.persisted_input_map action { mouse := some button } }

/-- `InputManager.is_action_active`. -/
def is_action_active (action : String) (s : IMState) : Bool :=
  let key := s.action_to_key action
  let keyHit :=
    match key with
    | some k => (k != 0) && s.key_state k
    | none => false
  if keyHit then true
  else
    match s.action_to_mouse (PyVal.str action) with
    | some b => b.truthy && s.mouse_state b
    | none => false

/-- A raw pygame event as classified by `InputManager.events`; `other`
covers every event type outside the four handled channels. -/
inductive Event
| keydown (key : Int)
| keyup (key : Int)
| mousebuttondown (button : Int)
| mousebuttonup (button : Int)
| other
deriving DecidableEq

/-- `InputManager.events`: updates the device-state store, then invokes the
local callback for the channel and code if one is bound, else the global
one.  Returns the updated state and the invoked callbacks in order. -/
def events (e : Event) (s : IMState) : IMState × List Callback :=
  match e with
  | .keydown k =>
    let s1 := { s with key_state := bset s.key_state k true }
    match s.local_key_down_callbacks k with
    | some cb => (s1, [cb])
    | none =>
      match s.global_key_down_callbacks k with
      | some cb => (s1, [cb])
      | none => (s1, [])
  | .keyup k =>
    let s1 := { s with key_state := bset s.key_state k false }
    match s.local_key_up_callbacks k with
    | some cb => (s1, [cb])
    | none =>
      match s.global_key_up_callbacks k with
      | some cb => (s1, [cb])
      | none => (s1, [])
  | .mousebuttondown b =>
    let s1 := { s with mouse_state := bset s.mouse_state (PyVal.int b) true }
    match s.local_mouse_down_callbacks b with
    | some cb => (s1, [cb])
    | none =>
      match s.global_mouse_down_callbacks b with
      | some cb => (s1, [cb])
      | none => (s1, [])
  | .mousebuttonup b =>
    let s1 := { s with mouse_state := bset s.mouse_state (PyVal.int b) false }
    match s.local_mouse_up_callbacks b with
    | some cb => (s1, [cb])
    | none =>
      match s.global_mouse_up_callbacks b with
      | some cb => (s1, [cb])
      | none => (s1, [])
  | .other => (s, [])

/-- One iteration of the `bind` loop of `InputManager.load_config`: scan
`persisted_input["bind"]` for the first record with this entry's callback
(the Python loop breaks on the first match), fall back to the config's
declared codes, then apply the truthy ones (a callback object is always
truthy, so `key and callback` reduces to the truthiness of `key`). -/
def loadBindEntry (bind : ConfigBind) (s : IMState) : IMState :=
  let persisted := s.persisted_input_bind.find? (fun b => b.callback == bind.callback)
  let key : Option Int :=
    match persisted with
    | some b => b.key
    | none => bind.key
  let button : Option Int :=
    match persisted with
    | some b => b.button
    | none => bind.button
  let s1 :=
    match key with
    | some k => if k != 0 then bind_key_down k bind.callback bind.global s else s
    | none => s
  match button with
  | some b => if b != 0 then bind_mouse_down b bind.callback bind.global s1 else s1
  | none => s1

/-- One iteration of the `map` loop of `InputManager.load_config`: if the
action is in the persisted map use its recorded codes, else the config's;
apply each code that `is not None` (no truthiness test here). -/
def loadMapEntry (action : String) (mapping : MapRecord) (s : IMState) : IMState :=
  let key : Option Int :=
    match s.persisted_input_map action with
    | some r => r.key
    | none => mapping.key
  let mouse : Option Int :=
    match s.persisted_input_map action with
    | some r => r.mouse
    | none => mapping.mouse
  let s1 :=
    match key with
    | some k => map_action_to_key k action s
    | none => s
  match mouse with
  | some m => map_action_to_mouse m action s1
  | none => s1

/-- The `bind` loop of `InputManager.load_config`. -/
def bindPhase (entries : List ConfigBind) (s : IMState) : IMState :=
  entries.foldl (fun st b => loadBindEntry b st) s

/-- The `map` loop of `InputManager.load_config`. -/
def mapPhase (entries : List (String × MapRecord)) (s : IMState) : IMState :=
  entries.foldl (fun st am => loadMapEntry am.1 am.2 st) s

/-- `InputManager.load_config` (early return on a `None` config). -/
def load_config (config : Option Config) (s : IMState) : IMState :=
  match config with
  | none => s
  | some c => mapPhase c.map (bindPhase c.bind s)

/-- The projection of an `IMState` named by claim C3: the eight callback
tables and the two action maps. -/
structure IMTables where
  lkd : Int → Option Callback
  lku : Int → Option Callback
  lmd : Int → Option Callback
  lmu : Int → Option Callback
  gkd : Int → Option Callback
  gku : Int → Option Callback
  gmd : Int → Option Callback
  gmu : Int → Option Callback
  a2k : String → Option Int
  a2m : PyVal → Option PyVal

/-- Read the C3 projection off a state. -/
def tablesOf (s : IMState) : IMTables where
  lkd := s.local_key_down_callbacks
  lku := s.local_key_up_callbacks
  lmd := s.local_mouse_down_callbacks
  lmu := s.local_mouse_up_callbacks
  gkd := s.global_key_down_callbacks
  gku := s.global_key_up_callbacks
  gmd := s.global_mouse_down_callbacks
  gmu := s.global_mouse_up_callbacks
  a2k := s.action_to_key
  a2m := s.action_to_mouse

/-!
UI subsystem: `engine/ui_element.py`, `engine/ui_label.py`,
`engine/ui_button.py`, `engine/ui_manager.py`.

Element attributes that the manager reads through `getattr` with a default
(`focusable`, `disabled`, `visible`) are modelled as fields whose value is
what that `getattr` returns; no constructor in the source ever sets
`focusable` or `disabled`, so construction yields the defaults.  Fonts and
colors are rendering-only resources never consulted by any embedded
operation and are omitted.  None of the three element classes defines
`on_focus`, `on_hover`, `on_click`, `on_activate` or `destroy`, so every
`hasattr` branch for those hooks in the manager is a no-op; `set_focus` is
defined only by `UIButton`.
-/

/-- A `pygame.Rect` as built by `UIElement.__init__` (coordinates are
coerced with `int`). -/
structure Rect where
  x : Int
  y : Int
  w : Int
  h : Int
deriving DecidableEq

/-- `pygame.Rect.collidepoint`: a point is inside if it is within the
rectangle, right and bottom edges excluded. -/
def Rect.collidepoint (r : Rect) (px py : Int) : Bool :=
  decide (r.x ≤ px) && decide (px < r.x + r.w) &&
  decide (r.y ≤ py) && decide (py < r.y + r.h)

/-- The class-specific attributes of the three element classes. -/
inductive ElemPayload
| base
| label (text : String) (align : String)
| button (text : String) (callback : Option Callback) (highlighted : Bool) (focused : Bool)
deriving DecidableEq

/-- A registered UI element.  `focusable` and `disabled` hold the value
read by `getattr(element, attr, False)`; the constructors below always
leave them at the absent-attribute default `false`. -/
structure Element where
  name : String
  rect : Rect
  visible : Bool
  focusable : Bool
  disabled : Bool
  payload : ElemPayload
deriving DecidableEq

/-- The keyword arguments `create_element` forwards to an element
constructor; every field is optional (defaults live in the constructors).
`focusable` and `disabled` can be passed but land in the constructors'
final `**kwargs`, which all three classes silently drop. -/
structure ElemKwargs where
  x : Option Int := none
  y : Option Int := none
  w : Option Int := none
  h : Option Int := none
  visible : Option Bool := none
  text : Option String := none
  align : Option String := none
  callback : Option Callback := none
  highlighted : Option Bool := none
  focusable : Option Bool := none
  disabled : Option Bool := none

/-- `UIElement.__init__(name, x=0, y=0, w=100, h=30, visible=True, **kwargs)`:
sets `name`, `rect`, `visible` and discards everything else. -/
def UIElement_init (name : String) (k : ElemKwargs) : Element where
  name := name
  rect := ⟨k.x.getD 0, k.y.getD 0, k.w.getD 100, k.h.getD 30⟩
  visible := k.visible.getD true
  focusable := false
  disabled := false
  payload := .base

/-- `UILabel.__init__(name, text="", x=0, y=0, w=100, h=30, ..., align="left", **kwargs)`. -/
def UILabel_init (name : String) (k : ElemKwargs) : Element :=
  { UIElement_init name k with
    payload := .label (k.text.getD "") (k.align.getD "left") }

/-- `UIButton.__init__(name, text="Button", x=0, y=0, w=120, h=40, ...,
callback=None, highlighted=False, **kwargs)`; `focused` starts `False`. -/
def UIButton_init (name : String) (k : ElemKwargs) : Element :=
  { UIElement_init name k with
    rect := ⟨k.x.getD 0, k.y.getD 0, k.w.getD 120, k.h.getD 40⟩
    payload := .button (k.text.getD "Button") k.callback (k.highlighted.getD false) false }

/-- `UIManager.ELEMENT_TYPES.get(element_type, UIElement)`. -/
def element_class (element_type : String) : String → ElemKwargs → Element :=
  if element_type = "UIElement" then UIElement_init
  else if element_type = "UILabel" then UILabel_init
  else if element_type = "UIButton" then UIButton_init
  else UIElement_init

/-- Lookup in a Python dict modelled as an insertion-ordered list
(keys are unique by construction). -/
def dget {α : Type} (d : List (String × α)) (k : String) : Option α :=
  (d.find? (fun p => p.1 == k)).map (fun p => p.2)

/-- `d[k] = v` on a Python dict modelled as an insertion-ordered list:
update in place if the key exists, else append. -/
def dset {α : Type} : List (String × α) → String → α → List (String × α)
| [], k, v => [(k, v)]
| p :: rest, k, v => if p.1 = k then (k, v) :: rest else p :: dset rest k v

/-- The mutable state of a `UIManager`. -/
structure UIState where
  elements : String → Option Element
  layers : List (String × List String)
  layer_order : List String
  focus_name : Option String

/-- The state built by `UIManager.__init__`
(`layer_order = list(LAYER_ORDER)`). -/
def initUI : UIState where
  elements := fun _ => none
  layers := []
  layer_order := ["background", "ui", "overlay"]
  focus_name := none

/-- `element.set_focus(state)` where the `hasattr(element, "set_focus")`
guard holds only for `UIButton`; identity on the other classes. -/
def set_focus_if_able (e : Element) (state : Bool) : Element :=
  match e.payload with
  | .button t c h _ => { e with payload := .button t c h state }
  | _ => e

/-- The opening lines of `UIManager.focus`: when the previously focused
name is truthy and still registered, clear that element's focused flag. -/
def unfocus_previous (s : UIState) : UIState :=
  match s.focus_name with
  | some prev =>
    if prev != "" then
      match s.elements prev with
      | some pe => { s with elements := fset s.elements prev (set_focus_if_able pe false) }
      | none => s
    else s
  | none => s

/-- `UIManager.focus(name)`: un-focus the previous element, then either
clear focus (`name is None`), return unchanged if `name` is unregistered,
or set focus and mark the new element focused.  Existence is the only
property of the target checked. -/
def focus (name : Option String) (s : UIState) : UIState :=
  let s := unfocus_previous s
  match name with
  | none => { s with focus_name := none }
  | some n =>
    match s.elements n with
    | none => s
    | some ne =>
      { s with
        focus_name := some n
        elements := fset s.elements n (set_focus_if_able ne true) }

/-- `UIManager.create_element(name, element_type, layer=None, **kwargs)`:
instantiate, register (overwriting any same-named element), ensure the
layer list exists (appending a new layer to `layer_order`), append the
name to the layer, and take initial focus if the element is focusable and
nothing is focused. -/
def create_element (name : String) (element_type : String) (layer : Option String)
    (kwargs : ElemKwargs) (s : UIState) : UIState :=
  let layer := layer.getD "ui"
  let element := element_class element_type name kwargs
  let s := { s with elements := fset s.elements name element }
  let s :=
    if (dget s.layers layer).isSome then s
    else
      let s := { s with layers := dset s.layers layer [] }
      if layer ∈ s.layer_order then s
      else { s with layer_order := s.layer_order ++ [layer] }
  let s := { s with layers := dset s.layers layer ((dget s.layers layer).getD [] ++ [name]) }
  if element.focusable && s.focus_name.isNone then focus (some name) s else s

/-- `UIManager.remove_element(name)`: pop from the registry (early return
if absent), remove the first occurrence of the name from every layer list
holding it, and clear focus if the removed element was focused. -/
def remove_element (name : String) (s : UIState) : UIState :=
  match s.elements name with
  | none => s
  | some _ =>
    let s := { s with elements := fun k => if k = name then none else s.elements k }
    let s := { s with
        layers := s.layers.map (fun p => if name ∈ p.2 then (p.1, p.2.erase name) else p) }
    if s.focus_name = some name then focus none s else s

/-- The loop body of `UIManager._focusable_names_in_order`: append the
name when the element exists, is marked focusable, and is neither
invisible nor disabled. -/
def focusStep (s : UIState) (acc : List String) (name : String) : List String :=
  match s.elements name with
  | some element =>
    if element.focusable then
      if element.visible = false then acc
      else if element.disabled then acc
      else acc ++ [name]
    else acc
  | none => acc

/-- `UIManager._focusable_names_in_order`: walk `layer_order`, then each
layer's insertion order, keeping names of registered, focusable, visible,
enabled elements. -/
def focusable_names_in_order (s : UIState) : List String :=
  s.layer_order.foldl (fun acc layer =>
    ((dget s.layers layer).getD []).foldl (focusStep s) acc) []

/-- Focus eligibility of a name, as one boolean test (used to restate the
loop above as a filter). -/
def eligB (s : UIState) (n : String) : Bool :=
  match s.elements n with
  | some el => el.focusable && el.visible && !el.disabled
  | none => false

/-- `UIManager.focus_first`. -/
def focus_first (s : UIState) : UIState :=
  match focusable_names_in_order s with
  | [] => s
  | n :: _ => focus (some n) s

/-- `UIManager.focus_last`. -/
def focus_last (s : UIState) : UIState :=
  let names := focusable_names_in_order s
  if names.isEmpty then s else focus (some (names.getLastD "")) s

/-- `UIManager.focus_next`: no-op on an empty eligible list; jump to the
first eligible element when the current focus is not in the list;
otherwise advance by one with wraparound. -/
def focus_next (s : UIState) : UIState :=
  let names := focusable_names_in_order s
  if names.isEmpty then s
  else
    match s.focus_name with
    | some f =>
      if names.contains f then
        let idx := names.indexOf f
        focus (some (names.getD ((idx + 1) % names.length) "")) s
      else focus_first s
    | none => focus_first s

/-- `UIManager.focus_prev`: as `focus_next`, but jumping to the last
eligible element and stepping back by one (Python `(idx - 1) % len` is a
nonnegative integer remainder). -/
def focus_prev (s : UIState) : UIState :=
  let names := focusable_names_in_order s
  if names.isEmpty then s
  else
    match s.focus_name with
    | some f =>
      if names.contains f then
        let idx : Int := names.indexOf f
        focus (some (names.getD ((idx - 1) % (names.length : Int)).toNat "")) s
      else focus_last s
    | none => focus_last s

/-- `UIManager.activate_focused`: returns the callback it invokes, if any
(the state is untouched).  `getattr(element, "callback", None)` is the
button payload's callback; `callable` is the invocability flag. -/
def activate_focused (s : UIState) : Option Callback :=
  match s.focus_name with
  | none => none
  | some f =>
    if f = "" then none
    else
      match s.elements f with
      | none => none
      | some element =>
        match element.payload with
        | .button _ (some cb) _ _ => if cb.invocable then some cb else none
        | _ => none

/-- The inner loop of `UIManager._topmost_element_at` over one layer:
scan the layer's names in reverse insertion order, skipping unregistered
names and elements whose `visible` is `False`, returning the first whose
rect contains the point (every element has a `rect`). -/
def scanLayer (s : UIState) (layer : String) (pos : Int × Int) : Option Element :=
  ((dget s.layers layer).getD []).reverse.findSome? (fun name =>
    match s.elements name with
    | none => none
    | some element =>
      if element.visible = false then none
      else if element.rect.collidepoint pos.1 pos.2 then some element
      else none)

/-- `UIManager._topmost_element_at(pos)`: scan `layer_order` in reverse,
delegating to `scanLayer` per layer. -/
def topmost_element_at (pos : Int × Int) (s : UIState) : Option Element :=
  s.layer_order.reverse.findSome? (fun layer => scanLayer s layer pos)

/-- `UIManager._handle_click(pos)`: resolve the topmost hit element and
move focus to it if it is focusable (no element class defines `on_click`
or `on_activate`, so those branches do nothing). -/
def handle_click (pos : Int × Int) (s : UIState) : UIState :=
  match topmost_element_at pos s with
  | none => s
  | some element =>
    if element.focusable then focus (some element.name) s else s

/-- Concatenation of the images of a list under a list-valued function
(used to state the flat-scan description of the hit test). -/
def concatMap {α β : Type} (f : α → List β) : List α → List β
| [] => []
| a :: l => f a ++ concatMap f l

/-- The flat scan order described by the spec for `topmostElementAt`:
`LayerOrder` in reverse, and within each layer the element names in
reverse insertion order. -/
def reverseScanNames (s : UIState) : List String :=
  concatMap (fun layer => ((dget s.layers layer).getD []).reverse) s.layer_order.reverse

/-- The spec's wording of the hit test, as one flat scan: the first name
in `reverseScanNames` resolving to a visible element whose rect contains
the position. -/
def topmostSpecScan (pos : Int × Int) (s : UIState) : Option Element :=
  (reverseScanNames s).findSome? (fun name =>
    match s.elements name with
    | none => none
    | some element =>
      if element.visible && element.rect.collidepoint pos.1 pos.2 then some element
      else none)

/-- Total number of occurrences of a name across the lists of a layers
dictionary. -/
def occL (d : List (String × List String)) (name : String) : Nat :=
  (d.map (fun p => p.2.count name)).sum

/-- Total number of occurrences of a name across all layer lists
(the measure used by the exactly-one-layer invariant of claim C8). -/
def occTotal (s : UIState) (name : String) : Nat :=
  occL s.layers name

/-!
Helper definitions for analysing `load_config` (claim C3).  A run of the
`bind` loop is described by, per entry, the resolved `(key, button)` pair,
the table assignments it performs, and the records it appends; a run of
the `map` loop likewise.
-/

/-- The `(key, button)` pair a `bind` entry resolves to against a fixed
persisted list: the first record with the entry's callback, else the
config's declared codes. -/
def resolveBind (p : List BindRecord) (e : ConfigBind) : Option Int × Option Int :=
  match p.find? (fun b => b.callback == e.callback) with
  | some b => (b.key, b.button)
  | none => (e.key, e.button)

/-- Python truthiness of an optional device code. -/
def truthyCode : Option Int → Bool
| some k => k != 0
| none => false

/-- The table assignment induced by one resolved device code (`none` when
the code is absent or falsy). -/
def devAsgn (code : Option Int) (cb : Callback) : Option (Int × Callback) :=
  match code with
  | some k => if k != 0 then some (k, cb) else none
  | none => none

/-- The key-table assignment a `bind` entry performs. -/
def bindKeyAsgn (p : List BindRecord) (e : ConfigBind) : Option (Int × Callback) :=
  devAsgn (resolveBind p e).1 e.callback

/-- The mouse-table assignment a `bind` entry performs. -/
def bindBtnAsgn (p : List BindRecord) (e : ConfigBind) : Option (Int × Callback) :=
  devAsgn (resolveBind p e).2 e.callback

/-- Projection of a `bind` entry's effect onto `local_key_down_callbacks`. -/
def projLKD (p : List BindRecord) (e : ConfigBind) : Option (Int × Callback) :=
  if e.global then none else bindKeyAsgn p e

/-- Projection onto `global_key_down_callbacks`. -/
def projGKD (p : List BindRecord) (e : ConfigBind) : Option (Int × Callback) :=
  if e.global then bindKeyAsgn p e else none

/-- Projection onto `local_mouse_down_callbacks`. -/
def projLMD (p : List BindRecord) (e : ConfigBind) : Option (Int × Callback) :=
  if e.global then none else bindBtnAsgn p e

/-- Projection onto `global_mouse_down_callbacks`. -/
def projGMD (p : List BindRecord) (e : ConfigBind) : Option (Int × Callback) :=
  if e.global then bindBtnAsgn p e else none

/-- The record `bind_key_down` appends for one resolved key, when truthy. -/
def keyRec (code : Option Int) (cb : Callback) (g : Bool) : List BindRecord :=
  match code with
  | some k => if k != 0 then [{ key := some k, callback := cb, global := g }] else []
  | none => []

/-- The record `bind_mouse_down` appends for one resolved button, when truthy. -/
def btnRec (code : Option Int) (cb : Callback) (g : Bool) : List BindRecord :=
  match code with
  | some b => if b != 0 then [{ button := some b, callback := cb, global := g }] else []
  | none => []

/-- The records a `bind` entry appends to the persisted list (one per
truthy resolved device, key first). -/
def entryRecs (p : List BindRecord) (e : ConfigBind) : List BindRecord :=
  keyRec (resolveBind p e).1 e.callback e.global ++
  btnRec (resolveBind p e).2 e.callback e.global

/-- The key half of a `bind` entry, as applied by `load_config`. -/
def applyKeyDev (code : Option Int) (cb : Callback) (g : Bool) (s : IMState) : IMState :=
  match code with
  | some k => if k != 0 then bind_key_down k cb g s else s
  | none => s

/-- The button half of a `bind` entry, as applied by `load_config`. -/
def applyBtnDev (code : Option Int) (cb : Callback) (g : Bool) (s : IMState) : IMState :=
  match code with
  | some b => if b != 0 then bind_mouse_down b cb g s else s
  | none => s

/-- Apply one optional dictionary assignment. -/
def applyOne {K V : Type} [DecidableEq K] (o : Option (K × V)) (t : K → Option V) :
    K → Option V :=
  match o with
  | some kv => fset t kv.1 kv.2
  | none => t

/-- Apply a list of optional dictionary assignments in order. -/
def applyOpt {K V : Type} [DecidableEq K] (l : List (Option (K × V))) (t : K → Option V) :
    K → Option V :=
  l.foldl (fun t o => applyOne o t) t

/-- The last value a list of optional assignments writes at a key. -/
def lastWrite {K V : Type} [DecidableEq K] (l : List (Option (K × V))) (k : K) : Option V :=
  l.foldl (fun acc o =>
    match o with
    | some kv => if kv.1 = k then some kv.2 else acc
    | none => acc) none

/-- The `(key, mouse)` pair a `map` entry resolves to against a fixed
persisted map. -/
def resolveMap (pm : String → Option MapRecord) (a : String) (m : MapRecord) :
    Option Int × Option Int :=
  match pm a with
  | some r => (r.key, r.mouse)
  | none => (m.key, m.mouse)

/-- The `action_to_key` assignment a `map` entry performs. -/
def projA2K (pm : String → Option MapRecord) (am : String × MapRecord) :
    Option (String × Int) :=
  match (resolveMap pm am.1 am.2).1 with
  | some k => some (am.1, k)
  | none => none

/-- The `action_to_mouse` assignment a `map` entry performs (int key,
string value — the source's inverted insertion). -/
def projA2M (pm : String → Option MapRecord) (am : String × MapRecord) :
    Option (PyVal × PyVal) :=
  match (resolveMap pm am.1 am.2).2 with
  | some b => some (PyVal.int b, PyVal.str am.1)
  | none => none

/-- The persisted-map record an action holds after its `map` entry ran
(the mouse write, made last, wins; else the key write; else unchanged). -/
def pmWrite (res : Option Int × Option Int) (old : Option MapRecord) : Option MapRecord :=
  match res.2 with
  | some b => some { mouse := some b }
  | none =>
    match res.1 with
    | some k => some { key := some k }
    | none => old

/-! Concrete fixtures used by counterexamples and witnesses. -/

/-- A concrete invocable callback. -/
def cbA : Callback := { id := 0, invocable := true }

/-- A second concrete invocable callback. -/
def cbB : Callback := { id := 1, invocable := true }

/-- A concrete value for which Python `callable` is false. -/
def cbBad : Callback := { id := 2, invocable := false }

/-- C1 fixture: key 3 bound both locally (to `cbA`) and globally (to `cbB`). -/
def c1state : IMState := bind_key_down 3 cbA false (bind_key_down 3 cbB true initIM)

/-- C2 fixture: two persisted records for `cbA` — key 5 appended first,
key 7 appended last. -/
def c2state : IMState :=
  { initIM with persisted_input_bind :=
      [{ key := some 5, callback := cbA, global := false },
       { key := some 7, callback := cbA, global := false }] }

/-- C2 fixture: a config entry declaring key 9 for `cbA`. -/
def c2bind : ConfigBind := { key := some 9, callback := cbA }

/-- C2 fixture: the config holding `c2bind`. -/
def c2cfg : Config := { bind := [c2bind] }

/-- C3 fixture: entry 1 binds `cbA` to button 7; entry 2 binds `cbB` to
key 5 and button 7 (a two-device entry). -/
def c3cfg : Config :=
  { bind := [{ button := some 7, callback := cbA },
             { key := some 5, button := some 7, callback := cbB }] }

/-- C3 witness fixture: a config with one single-device bind entry and
one action mapping. -/
def c3wcfg : Config :=
  { bind := [{ key := some 5, callback := cbA }]
    map := [("jump", { key := some 32 })] }

/-- C4 fixture: action `"fire"` mapped to mouse button 1, then button 1
pressed through `events`. -/
def c4state : IMState :=
  (events (Event.mousebuttondown 1) (map_action_to_mouse 1 "fire" initIM)).1

/-- C5 fixture: one plain (hence non-focusable) element. -/
def c5pre : UIState := create_element "a" "UIElement" none {} initUI

/-- C5 fixture: the plain element focused by name. -/
def c5state : UIState := focus (some "a") c5pre

/-- C6 fixture: element A at (0,0). -/
def c6sA : UIState := create_element "A" "UIElement" none { x := some 0, y := some 0 } initUI

/-- C6 fixture: element B at (50,0) registered after A in the same layer;
their default 100 by 30 rects overlap. -/
def c6sAB : UIState := create_element "B" "UIElement" none { x := some 50, y := some 0 } c6sA

/-- C7 fixture: a focusable element named A (focusability can only come
from outside the constructors, per C10). -/
def elA : Element :=
  { name := "A", rect := ⟨0, 0, 10, 10⟩, visible := true, focusable := true
    disabled := false, payload := .base }

/-- C7 fixture: a focusable element named B. -/
def elB : Element := { elA with name := "B" }

/-- C7 fixture: a focusable element named C. -/
def elC : Element := { elA with name := "C" }

/-- C7 fixture: focusable A, B, C registered in that order in one layer,
nothing focused. -/
def sABC : UIState where
  elements := fun n =>
    if n = "A" then some elA
    else if n = "B" then some elB
    else if n = "C" then some elC
    else none
  layers := [("ui", ["A", "B", "C"])]
  layer_order := ["background", "ui", "overlay"]
  focus_name := none

/-- C7 fixture: the same registry with A focused. -/
def sABC_A : UIState := focus (some "A") sABC

/-- C8 fixture: `"a"` registered in layer `"ui"`. -/
def c8a : UIState := create_element "a" "UIElement" (some "ui") {} initUI

/-- C8 fixture: the same name `"a"` registered again, in layer `"overlay"`. -/
def c8b : UIState := create_element "a" "UIElement" (some "overlay") {} c8a

/-- The focus invariant that the code actually maintains (claim C5,
amended): a focused name is registered. -/
def FocusInv (s : UIState) : Prop :=
  ∀ n, s.focus_name = some n → (s.elements n).isSome

/-- The layer-membership invariant of claim C8: a registered name occurs
exactly once across all layer lists, an unregistered one not at all. -/
def LayerInv (s : UIState) : Prop :=
  ∀ n, occTotal s n = if (s.elements n).isSome then 1 else 0

/-!
Theorems.
-/

/-- C1: dispatching a raw event through `InputManager.events` invokes at
most one bound callback; on every channel, if both a Local and a Global
callback are registered for the event's code, only the Local one is
invoked; the Global table is consulted only when no Local binding exists
for that channel and code. -/
theorem C1_local_shadows_global :
    (∀ (e : Event) (s : IMState), ((events e s).2).length ≤ 1) ∧
    (∀ (s : IMState) (k : Int) (cbL cbG : Callback),
      s.local_key_down_callbacks k = some cbL →
      s.global_key_down_callbacks k = some cbG →
      (events (Event.keydown k) s).2 = [cbL]) ∧
    (∀ (s : IMState) (k : Int) (cbL cbG : Callback),
      s.local_key_up_callbacks k = some cbL →
      s.global_key_up_callbacks k = some cbG →
      (events (Event.keyup k) s).2 = [cbL]) ∧
    (∀ (s : IMState) (b : Int) (cbL cbG : Callback),
      s.local_mouse_down_callbacks b = some cbL →
      s.global_mouse_down_callbacks b = some cbG →
      (events (Event.mousebuttondown b) s).2 = [cbL]) ∧
    (∀ (s : IMState) (b : Int) (cbL cbG : Callback),
      s.local_mouse_up_callbacks b = some cbL →
      s.global_mouse_up_callbacks b = some cbG →
      (events (Event.mousebuttonup b) s).2 = [cbL]) ∧
    (∀ (s : IMState) (k : Int) (cbG : Callback),
      s.local_key_down_callbacks k = none →
      s.global_key_down_callbacks k = some cbG →
      (events (Event.keydown k) s).2 = [cbG]) ∧
    (∀ (s : IMState) (k : Int) (cbG : Callback),
      s.local_key_up_callbacks k = none →
      s.global_key_up_callbacks k = some cbG →
      (events (Event.keyup k) s).2 = [cbG]) ∧
    (∀ (s : IMState) (b : Int) (cbG : Callback),
      s.local_mouse_down_callbacks b = none →
      s.global_mouse_down_callbacks b = some cbG →
      (events (Event.mousebuttondown b) s).2 = [cbG]) ∧
    (∀ (s : IMState) (b : Int) (cbG : Callback),
      s.local_mouse_up_callbacks b = none →
      s.global_mouse_up_callbacks b = some cbG →
      (events (Event.mousebuttonup b) s).2 = [cbG]) := by
  refine ⟨?_, ?_, ?_, ?_, ?_, ?_, ?_, ?_, ?_⟩
  · intro e s
    cases e with
    | keydown k =>
      cases hl : s.local_key_down_callbacks k <;>
        cases hg : s.global_key_down_callbacks k <;> simp [events, hl, hg]
    | keyup k =>
      cases hl : s.local_key_up_callbacks k <;>
        cases hg : s.global_key_up_callbacks k <;> simp [events, hl, hg]
    | mousebuttondown b =>
      cases hl : s.local_mouse_down_callbacks b <;>
        cases hg : s.global_mouse_down_callbacks b <;> simp [events, hl, hg]
    | mousebuttonup b =>
      cases hl : s.local_mouse_up_callbacks b <;>
        cases hg : s.global_mouse_up_callbacks b <;> simp [events, hl, hg]
    | other => simp [events]
  all_goals intros
  all_goals simp [events, *]

/-- Witness for C1 at key 3 of `c1state` (local `cbA` shadows global `cbB`). -/
theorem C1_local_shadows_global_witness :
    (events (Event.keydown 3) c1state).2 = [cbA] :=
  C1_local_shadows_global.2.1 c1state 3 cbA cbB (by decide) (by decide)

/-- C2 counterexample: with two persisted records for `cbA` (key 5 first,
key 7 last) and a config declaring key 9, `load_config` binds key 5 — the
first-appended record — not key 7 (the most recent) and not key 9. -/
theorem C2_counterexample :
    (load_config (some c2cfg) c2state).local_key_down_callbacks 5 = some cbA ∧
    (load_config (some c2cfg) c2state).local_key_down_callbacks 7 = none ∧
    (load_config (some c2cfg) c2state).local_key_down_callbacks 9 = none := by
  decide

/-- C2 (amended): when a bind entry's callback has one or more records in
the persisted snapshot, `load_config` applies the codes of the EARLIEST
(first-appended) matching record — the Python scan breaks on the first
match — instead of the code declared in the config. -/
theorem C2_amended_first_record (s : IMState) (e : ConfigBind) (r : BindRecord)
    (h : s.persisted_input_bind.find? (fun b => b.callback == e.callback) = some r) :
    loadBindEntry e s =
      (match r.button with
       | some b => if b != 0 then bind_mouse_down b e.callback e.global else id
       | none => id)
      ((match r.key with
        | some k => if k != 0 then bind_key_down k e.callback e.global else id
        | none => id) s) := by
  obtain ⟨rk, rb, rc, rg⟩ := r
  simp only [loadBindEntry, h]
  cases rk <;> cases rb <;> simp only [ite_apply, id_eq]

/-- Witness for C2 (amended) at the `c2state`/`c2bind` fixture. -/
theorem C2_amended_first_record_witness :
    loadBindEntry c2bind c2state = bind_key_down 5 cbA false c2state := by
  simpa using
    C2_amended_first_record c2state c2bind
      { key := some 5, callback := cbA, global := false } (by decide)

/-- C4 (code bug): `map_action_to_mouse` stores `action_to_mouse[button] =
action` (int key), but `is_action_active` looks the ACTION name up in that
dictionary, so an action mapped to a mouse button is never reported
active: after mapping `"fire"` to button 1 and pressing button 1, the
device state shows the press yet `is_action_active "fire"` is false (the
class docstring says `action_to_mouse` maps action names to buttons). -/
theorem C4_mouse_mapped_action_never_active :
    c4state.action_to_mouse (PyVal.int 1) = some (PyVal.str "fire") ∧
    c4state.mouse_state (PyVal.int 1) = true ∧
    c4state.action_to_mouse (PyVal.str "fire") = none ∧
    is_action_active "fire" c4state = false := by
  decide

/-- C9 counterexample: binding a value for which Python `callable` is
false succeeds and registers it (no `InvalidCallback` — the bind and map
operations have no validation or error path at all). -/
theorem C9_counterexample :
    cbBad.invocable = false ∧
    (bind_key_down 5 cbBad false initIM).local_key_down_callbacks 5 = some cbBad ∧
    (map_action_to_key 6 "act" initIM).action_to_key "act" = some 6 := by
  decide

/-- C9 (amended): the binding and mapping operations perform no
construction-time validation and always succeed: scope is a boolean flag
and channel/device are fixed by which method is called, so
out-of-enumeration values are unrepresentable, and any callback value —
invocable or not — is registered unconditionally. -/
theorem C9_amended_no_validation :
    (∀ (k : Int) (cb : Callback) (g : Bool) (s : IMState),
      (bind_key_down k cb g s).local_key_down_callbacks =
        (if g then s.local_key_down_callbacks else fset s.local_key_down_callbacks k cb) ∧
      (bind_key_down k cb g s).global_key_down_callbacks =
        (if g then fset s.global_key_down_callbacks k cb else s.global_key_down_callbacks)) ∧
    (∀ (k : Int) (cb : Callback) (g : Bool) (s : IMState),
      (bind_key_up k cb g s).local_key_up_callbacks =
        (if g then s.local_key_up_callbacks else fset s.local_key_up_callbacks k cb) ∧
      (bind_key_up k cb g s).global_key_up_callbacks =
        (if g then fset s.global_key_up_callbacks k cb else s.global_key_up_callbacks)) ∧
    (∀ (b : Int) (cb : Callback) (g : Bool) (s : IMState),
      (bind_mouse_down b cb g s).local_mouse_down_callbacks =
        (if g then s.local_mouse_down_callbacks else fset s.local_mouse_down_callbacks b cb) ∧
      (bind_mouse_down b cb g s).global_mouse_down_callbacks =
        (if g then fset s.global_mouse_down_callbacks b cb else s.global_mouse_down_callbacks)) ∧
    (∀ (b : Int) (cb : Callback) (g : Bool) (s : IMState),
      (bind_mouse_up b cb g s).local_mouse_up_callbacks =
        (if g then s.local_mouse_up_callbacks else fset s.local_mouse_up_callbacks b cb) ∧
      (bind_mouse_up b cb g s).global_mouse_up_callbacks =
        (if g then fset s.global_mouse_up_callbacks b cb else s.global_mouse_up_callbacks)) ∧
    (∀ (k : Int) (a : String) (s : IMState),
      (map_action_to_key k a s).action_to_key = fset s.action_to_key a k) ∧
    (∀ (b : Int) (a : String) (s : IMState),
      (map_action_to_mouse b a s).action_to_mouse =
        fset s.action_to_mouse (PyVal.int b) (PyVal.str a)) := by
  refine ⟨fun k cb g s => ?_, fun k cb g s => ?_, fun b cb g s => ?_, fun b cb g s => ?_,
    fun k a s => rfl, fun b a s => rfl⟩ <;>
    (constructor <;> cases g <;>
      simp [bind_key_down, bind_key_up, bind_mouse_down, bind_mouse_up])

/-- Every element constructor leaves the `focusable` attribute unset, so
the `getattr` read is the default `false`. -/
theorem element_class_focusable (element_type name : String) (k : ElemKwargs) :
    (element_class element_type name k).focusable = false := by
  unfold element_class
  split_ifs <;> rfl

/-- The focus-list loop body as a filter step. -/
theorem focusStep_eq (s : UIState) (acc : List String) (n : String) :
    focusStep s acc n = if eligB s n then acc ++ [n] else acc := by
  unfold focusStep eligB
  cases h : s.elements n with
  | none => rfl
  | some el =>
    cases hf : el.focusable <;> cases hv : el.visible <;> cases hd : el.disabled <;>
      simp [hf, hv, hd]

/-- Folding the focus-list loop body appends exactly the eligible names. -/
theorem foldl_focusStep (s : UIState) (l : List String) (acc : List String) :
    l.foldl (focusStep s) acc = acc ++ l.filter (fun n => eligB s n) := by
  induction l generalizing acc with
  | nil => simp
  | cons a l ih =>
    rw [List.foldl_cons, focusStep_eq, ih]
    by_cases h : eligB s a = true <;> simp [h, List.filter_cons]

/-- `_focusable_names_in_order` is the filter of the flattened layer walk. -/
theorem focusable_names_eq (s : UIState) :
    focusable_names_in_order s =
      (concatMap (fun layer => (dget s.layers layer).getD []) s.layer_order).filter
        (fun n => eligB s n) := by
  unfold focusable_names_in_order
  suffices h : ∀ (L : List String) (acc : List String),
      L.foldl (fun acc layer => ((dget s.layers layer).getD []).foldl (focusStep s) acc) acc =
        acc ++ (concatMap (fun layer => (dget s.layers layer).getD []) L).filter
          (fun n => eligB s n) by
    simpa using h s.layer_order []
  intro L
  induction L with
  | nil => intro acc; simp [concatMap]
  | cons a L ih =>
    intro acc
    rw [List.foldl_cons, foldl_focusStep, ih]
    simp [concatMap, List.filter_append, List.append_assoc]

/-- Membership in the focus-eligible list forces eligibility. -/
theorem mem_focusable_names (s : UIState) (n : String)
    (h : n ∈ focusable_names_in_order s) : eligB s n = true := by
  rw [focusable_names_eq] at h
  exact List.of_mem_filter h

/-- An eligible name is registered. -/
theorem eligB_isSome (s : UIState) (n : String) (h : eligB s n = true) :
    (s.elements n).isSome := by
  unfold eligB at h
  cases hx : s.elements n with
  | none => rw [hx] at h; cases h
  | some el => rfl

/-- `create_element` written out as one structure update (the automatic
initial-focus branch never fires because constructed elements are not
focusable). -/
theorem create_element_eq (name element_type : String) (layer : Option String)
    (kwargs : ElemKwargs) (s : UIState) :
    create_element name element_type layer kwargs s =
      { s with
        elements := fset s.elements name (element_class element_type name kwargs)
        layers :=
          dset (if (dget s.layers (layer.getD "ui")).isSome then s.layers
                else dset s.layers (layer.getD "ui") [])
            (layer.getD "ui")
            ((dget (if (dget s.layers (layer.getD "ui")).isSome then s.layers
                    else dset s.layers (layer.getD "ui") [])
                (layer.getD "ui")).getD [] ++ [name])
        layer_order :=
          if (dget s.layers (layer.getD "ui")).isSome then s.layer_order
          else if layer.getD "ui" ∈ s.layer_order then s.layer_order
          else s.layer_order ++ [layer.getD "ui"] } := by
  unfold create_element
  simp only [element_class_focusable, Bool.false_and, Bool.false_eq_true, if_false]
  split_ifs <;> rfl

/-- C10: every element built through `create_element` — whatever the
element type string and even when a `focusable` entry is passed in the
props — reads `focusable = False` (the constructors drop the kwarg), so
the element never enters the focus-eligible list and `create_element`'s
automatic initial-focus branch is never taken. -/
theorem C10_focusable_kwarg_discarded :
    ∀ (name element_type : String) (layer : Option String) (kwargs : ElemKwargs) (s : UIState),
      (element_class element_type name kwargs).focusable = false ∧
      (create_element name element_type layer kwargs s).focus_name = s.focus_name ∧
      name ∉ focusable_names_in_order (create_element name element_type layer kwargs s) := by
  intro name element_type layer kwargs s
  refine ⟨element_class_focusable .., ?_, ?_⟩
  · rw [create_element_eq]
  · intro hmem
    have h := mem_focusable_names _ _ hmem
    rw [create_element_eq] at h
    simp [eligB, fset, element_class_focusable] at h

/-- The per-layer scan of the hit test, restated with one boolean guard. -/
theorem scanLayer_eq (s : UIState) (layer : String) (pos : Int × Int) :
    scanLayer s layer pos =
      ((dget s.layers layer).getD []).reverse.findSome? (fun name =>
        match s.elements name with
        | none => none
        | some element =>
          if element.visible && element.rect.collidepoint pos.1 pos.2 then some element
          else none) := by
  unfold scanLayer
  congr 1
  funext name
  cases h : s.elements name with
  | none => rfl
  | some el => cases hv : el.visible <;> simp [hv]

/-- Scanning a concatenation segment-by-segment is the flat scan. -/
theorem findSome?_concatMap {α β γ : Type} (f : α → List β) (g : β → Option γ) (l : List α) :
    (concatMap f l).findSome? g = l.findSome? (fun a => (f a).findSome? g) := by
  induction l with
  | nil => rfl
  | cons a l ih =>
    rw [concatMap, List.findSome?_append, ih, List.findSome?_cons]
    cases (f a).findSome? g <;> simp [Option.or]

/-- C6: `_topmost_element_at` equals the spec's flat reverse scan — the
first visible element containing the point when walking `layer_order` in
reverse and each layer's names in reverse insertion order, `none` when no
visible element contains the point — and on the concrete fixture of two
overlapping elements in one layer (A then B, both containing (60,10)) it
returns the later-registered B. -/
theorem C6_topmost_hit_test :
    (∀ (pos : Int × Int) (s : UIState), topmost_element_at pos s = topmostSpecScan pos s) ∧
    (UIElement_init "A" { x := some 0, y := some 0 }).rect.collidepoint 60 10 = true ∧
    (UIElement_init "B" { x := some 50, y := some 0 }).rect.collidepoint 60 10 = true ∧
    topmost_element_at (60, 10) c6sAB =
      some (UIElement_init "B" { x := some 50, y := some 0 }) ∧
    (UIElement_init "B" { x := some 50, y := some 0 }).name = "B" := by
  refine ⟨?_, by decide, by decide, by decide, by decide⟩
  intro pos s
  unfold topmost_element_at topmostSpecScan reverseScanNames
  rw [findSome?_concatMap]
  congr 1
  funext layer
  exact scanLayer_eq s layer pos

/-- `remove_element` written out as one structure update per branch. -/
theorem remove_element_eq (name : String) (s : UIState) :
    remove_element name s =
      match s.elements name with
      | none => s
      | some _ =>
        let s2 : UIState :=
          { s with
            elements := fun k => if k = name then none else s.elements k
            layers := s.layers.map (fun p => if name ∈ p.2 then (p.1, p.2.erase name) else p) }
        if s2.focus_name = some name then focus none s2 else s2 := by
  unfold remove_element
  rfl

/-- The un-focus prelude does not move the focus. -/
theorem unfocus_previous_focus_name (s : UIState) :
    (unfocus_previous s).focus_name = s.focus_name := by
  obtain ⟨els, lys, lo, fn⟩ := s
  unfold unfocus_previous
  cases fn with
  | none => rfl
  | some prev =>
    dsimp only
    split_ifs with h
    · cases els prev <;> rfl
    · rfl

/-- The un-focus prelude does not register or unregister any element. -/
theorem unfocus_previous_elements_isSome (s : UIState) (n : String) :
    ((unfocus_previous s).elements n).isSome = (s.elements n).isSome := by
  obtain ⟨els, lys, lo, fn⟩ := s
  unfold unfocus_previous
  cases fn with
  | none => rfl
  | some prev =>
    dsimp only
    split_ifs with h
    · cases hpe : els prev with
      | none => rfl
      | some pe =>
        dsimp only
        by_cases hn : n = prev
        · subst hn; simp [fset, hpe]
        · simp [fset, hn]
    · rfl

/-- What `focus` does to `focus_name`: clear on `None`, move on a
registered target, stay put on an unregistered one. -/
theorem focus_focus_name (nm : Option String) (s : UIState) :
    (focus nm s).focus_name =
      match nm with
      | none => none
      | some n => if (s.elements n).isSome then some n else s.focus_name := by
  unfold focus
  cases nm with
  | none => rfl
  | some n =>
    have hiso := unfocus_previous_elements_isSome s n
    dsimp only
    cases hx : (unfocus_previous s).elements n with
    | none =>
      rw [hx] at hiso
      rw [unfocus_previous_focus_name, ← hiso]
      simp
    | some ne_ =>
      rw [hx] at hiso
      rw [← hiso]
      simp

/-- `focus` registers and unregisters nothing. -/
theorem focus_elements_isSome (nm : Option String) (s : UIState) (n : String) :
    ((focus nm s).elements n).isSome = (s.elements n).isSome := by
  unfold focus
  cases nm with
  | none => exact unfocus_previous_elements_isSome s n
  | some m =>
    dsimp only
    cases hx : (unfocus_previous s).elements m with
    | none => exact unfocus_previous_elements_isSome s n
    | some me =>
      dsimp only
      by_cases hn : n = m
      · subst hn
        simp only [fset, if_pos rfl, Option.isSome_some]
        rw [← unfocus_previous_elements_isSome s n, hx]
        rfl
      · simp only [fset, if_neg hn]
        exact unfocus_previous_elements_isSome s n

/-- `focus` preserves the existence invariant. -/
theorem focus_inv (nm : Option String) (s : UIState) (h : FocusInv s) :
    FocusInv (focus nm s) := by
  intro n hn
  rw [focus_focus_name] at hn
  rw [focus_elements_isSome]
  cases nm with
  | none => simp at hn
  | some m =>
    dsimp only at hn
    by_cases hm : (s.elements m).isSome
    · rw [if_pos hm] at hn
      cases hn
      exact hm
    · rw [if_neg hm] at hn
      exact h n hn

/-- `focus_first` preserves the existence invariant. -/
theorem focus_first_inv (s : UIState) (h : FocusInv s) : FocusInv (focus_first s) := by
  unfold focus_first
  cases focusable_names_in_order s with
  | nil => exact h
  | cons a l => exact focus_inv _ _ h

/-- `focus_last` preserves the existence invariant. -/
theorem focus_last_inv (s : UIState) (h : FocusInv s) : FocusInv (focus_last s) := by
  unfold focus_last
  dsimp only
  split_ifs with hx
  · exact h
  · exact focus_inv _ _ h

/-- C5 counterexample: `focus` checks only that the target exists, so the
claimed invariant fails — after creating one plain element and focusing
it, `focus_name` names an element that is not focusable. -/
theorem C5_counterexample :
    c5state.focus_name = some "a" ∧
    c5state.elements "a" = some (UIElement_init "a" {}) ∧
    (UIElement_init "a" {}).focusable = false := by
  decide

/-- C5 (amended): the invariant the operations really preserve is
existence — whenever `focus_name` is set, the named element is in the
registry.  Visibility, focusability and enabled-ness are not enforced by
`focus`, and traversal does not clear a stale focus (it treats it as no
focus).  Existence is preserved by `focus`, `create_element`,
`remove_element`, click handling and all four traversal operations
(`activate_focused` does not touch the state at all). -/
theorem C5_amended_focus_existence (s : UIState) (h : FocusInv s) :
    (∀ nm, FocusInv (focus nm s)) ∧
    (∀ (name element_type : String) (layer : Option String) (kwargs : ElemKwargs),
      FocusInv (create_element name element_type layer kwargs s)) ∧
    (∀ name, FocusInv (remove_element name s)) ∧
    (∀ pos, FocusInv (handle_click pos s)) ∧
    FocusInv (focus_next s) ∧ FocusInv (focus_prev s) ∧
    FocusInv (focus_first s) ∧ FocusInv (focus_last s) := by
  refine ⟨fun nm => focus_inv nm s h, ?_, ?_, ?_, ?_, ?_, focus_first_inv s h, focus_last_inv s h⟩
  · intro name element_type layer kwargs n hn
    rw [create_element_eq] at hn ⊢
    have hs := h n hn
    by_cases hx : n = name
    · subst hx; simp [fset]
    · simp only [fset, if_neg hx]
      exact hs
  · intro name n hn
    rw [remove_element_eq] at hn ⊢
    cases hel : s.elements name with
    | none =>
      rw [hel] at hn
      exact h n hn
    | some el =>
      rw [hel] at hn
      dsimp only at hn ⊢
      split_ifs at hn ⊢ with hfoc
      · rw [focus_focus_name] at hn
        simp at hn
      · have hne : n ≠ name := by
          intro hx
          subst hx
          exact hfoc hn
        have hs := h n hn
        simp only [if_neg hne]
        exact hs
  · intro pos n hn
    unfold handle_click at hn ⊢
    cases htop : topmost_element_at pos s with
    | none =>
      rw [htop] at hn
      exact h n hn
    | some el =>
      rw [htop] at hn
      dsimp only at hn ⊢
      split_ifs at hn ⊢ with hfoc
      · exact focus_inv _ _ h n hn
      · exact h n hn
  · unfold focus_next
    dsimp only
    split_ifs with hx
    · exact h
    · cases hf : s.focus_name with
      | none => exact focus_first_inv s h
      | some f =>
        dsimp only
        split_ifs with hc
        · exact focus_inv _ _ h
        · exact focus_first_inv s h
  · unfold focus_prev
    dsimp only
    split_ifs with hx
    · exact h
    · cases hf : s.focus_name with
      | none => exact focus_last_inv s h
      | some f =>
        dsimp only
        split_ifs with hc
        · exact focus_inv _ _ h
        · exact focus_last_inv s h

/-- Witness for C5 (amended) at the `c5pre` fixture. -/
theorem C5_amended_focus_existence_witness : FocusInv c5state := by
  have h0 : FocusInv c5pre := by
    intro n hn
    rw [show c5pre.focus_name = none by rfl] at hn
    cases hn
  exact (C5_amended_focus_existence c5pre h0).1 (some "a")

/-- A member of the eligible list is registered. -/
theorem mem_names_isSome (s : UIState) (a : String)
    (h : a ∈ focusable_names_in_order s) : (s.elements a).isSome :=
  eligB_isSome s a (mem_focusable_names s a h)

/-- Focusing a member of the eligible list lands the focus there. -/
theorem focus_mem_focus_name (s : UIState) (a : String)
    (h : a ∈ focusable_names_in_order s) : (focus (some a) s).focus_name = some a := by
  rw [focus_focus_name]
  dsimp only
  rw [if_pos (mem_names_isSome s a h)]

/-- `focus_first` on a nonempty eligible list focuses its head. -/
theorem focus_first_focus_name (s : UIState) (h : focusable_names_in_order s ≠ []) :
    (focus_first s).focus_name = some ((focusable_names_in_order s).headD "") := by
  unfold focus_first
  cases hns : focusable_names_in_order s with
  | nil => exact absurd hns h
  | cons a rest =>
    dsimp only [List.headD]
    exact focus_mem_focus_name s a (by rw [hns]; exact List.mem_cons_self a rest)

/-- `focus_last` on a nonempty eligible list focuses its last element. -/
theorem focus_last_focus_name (s : UIState) (h : focusable_names_in_order s ≠ []) :
    (focus_last s).focus_name = some ((focusable_names_in_order s).getLastD "") := by
  unfold focus_last
  dsimp only
  rw [if_neg (by simpa [List.isEmpty_iff] using h)]
  apply focus_mem_focus_name
  have hlast : (focusable_names_in_order s).getLastD "" = (focusable_names_in_order s).getLast h := by
    rw [List.getLastD_eq_getLast?, List.getLast?_eq_getLast _ h]
    rfl
  rw [hlast]
  exact List.getLast_mem h

/-- Python's `(idx - 1) % len` (nonnegative remainder on ints) agrees with
`(idx + (len - 1)) % len` on naturals when `idx < len`. -/
theorem pyPrevIdx (idx len : Nat) (h : idx < len) :
    (((idx : Int) - 1) % (len : Int)).toNat = (idx + (len - 1)) % len := by
  cases idx with
  | zero =>
    have hl : 0 < len := h
    have h1 : ((0 : Nat) : Int) - 1 = (-1 : Int) := by ring
    have h2 : ((-1 : Int) + (len : Int) * 1) % (len : Int) = (-1 : Int) % (len : Int) :=
      Int.add_mul_emod_self_left (-1) len 1
    have h3 : (-1 : Int) + (len : Int) * 1 = (len : Int) - 1 := by ring
    rw [h3] at h2
    rw [h1, ← h2, Int.emod_eq_of_lt (by omega) (by omega)]
    rw [Nat.zero_add, Nat.mod_eq_of_lt (by omega)]
    omega
  | succ n =>
    have h2 : ((n + 1 : Nat) : Int) - 1 = (n : Int) := by push_cast; ring
    rw [h2, Int.emod_eq_of_lt (by positivity) (by exact_mod_cast Nat.lt_of_succ_lt h)]
    have h3 : n + 1 + (len - 1) = n + len := by omega
    rw [h3, Nat.add_mod_right, Nat.mod_eq_of_lt (Nat.lt_of_succ_lt h)]
    simp

/-- C7: `focus_next`/`focus_prev` are no-ops on an empty eligible list;
when the current focus is `None` or not among the eligible names they jump
to the first / last eligible element; when it is eligible they move +1 /
-1 in eligible order with wraparound modulo the list length. -/
theorem C7_focus_cycling (s : UIState) :
    (focusable_names_in_order s = [] → focus_next s = s ∧ focus_prev s = s) ∧
    (focusable_names_in_order s ≠ [] →
      ((match s.focus_name with
        | none => True
        | some f => f ∉ focusable_names_in_order s) →
        (focus_next s).focus_name = some ((focusable_names_in_order s).headD "") ∧
        (focus_prev s).focus_name = some ((focusable_names_in_order s).getLastD "")) ∧
      (∀ f, s.focus_name = some f → f ∈ focusable_names_in_order s →
        (focus_next s).focus_name =
          some ((focusable_names_in_order s).getD
            (((focusable_names_in_order s).indexOf f + 1) %
              (focusable_names_in_order s).length) "") ∧
        (focus_prev s).focus_name =
          some ((focusable_names_in_order s).getD
            (((focusable_names_in_order s).indexOf f +
              ((focusable_names_in_order s).length - 1)) %
              (focusable_names_in_order s).length) ""))) := by
  refine ⟨?_, ?_⟩
  · intro hnil
    constructor
    · unfold focus_next
      dsimp only
      rw [if_pos (by simp [hnil])]
    · unfold focus_prev
      dsimp only
      rw [if_pos (by simp [hnil])]
  · intro hne
    have hlen : 0 < (focusable_names_in_order s).length := List.length_pos.mpr hne
    constructor
    · intro hnotin
      constructor
      · unfold focus_next
        dsimp only
        rw [if_neg (by simpa [List.isEmpty_iff] using hne)]
        cases hf : s.focus_name with
        | none => exact focus_first_focus_name s hne
        | some f =>
          rw [hf] at hnotin
          dsimp only at hnotin
          dsimp only
          rw [if_neg (fun hc => hnotin (List.elem_iff.mp hc))]
          exact focus_first_focus_name s hne
      · unfold focus_prev
        dsimp only
        rw [if_neg (by simpa [List.isEmpty_iff] using hne)]
        cases hf : s.focus_name with
        | none => exact focus_last_focus_name s hne
        | some f =>
          rw [hf] at hnotin
          dsimp only at hnotin
          dsimp only
          rw [if_neg (fun hc => hnotin (List.elem_iff.mp hc))]
          exact focus_last_focus_name s hne
    · intro f hf hmem
      have hidx : (focusable_names_in_order s).indexOf f < (focusable_names_in_order s).length :=
        List.indexOf_lt_length.mpr hmem
      constructor
      · unfold focus_next
        dsimp only
        rw [if_neg (by simpa [List.isEmpty_iff] using hne), hf]
        dsimp only
        rw [if_pos (List.elem_iff.mpr hmem)]
        apply focus_mem_focus_name
        have h2 : ((focusable_names_in_order s).indexOf f + 1) %
            (focusable_names_in_order s).length < (focusable_names_in_order s).length :=
          Nat.mod_lt _ hlen
        rw [List.getD_eq_getElem _ _ h2]
        exact List.getElem_mem h2
      · unfold focus_prev
        dsimp only
        rw [if_neg (by simpa [List.isEmpty_iff] using hne), hf]
        dsimp only
        rw [if_pos (List.elem_iff.mpr hmem)]
        rw [pyPrevIdx _ _ hidx]
        apply focus_mem_focus_name
        have h2 : ((focusable_names_in_order s).indexOf f +
            ((focusable_names_in_order s).length - 1)) %
            (focusable_names_in_order s).length < (focusable_names_in_order s).length :=
          Nat.mod_lt _ hlen
        rw [List.getD_eq_getElem _ _ h2]
        exact List.getElem_mem h2

/-- Witness for C7 on the A, B, C fixture: from no focus, `focus_next`
lands on A; from A, `focus_prev` wraps to C. -/
theorem C7_focus_cycling_witness :
    (focus_next sABC).focus_name = some "A" ∧
    (focus_prev sABC_A).focus_name = some "C" := by
  constructor
  · exact (((C7_focus_cycling sABC).2 (by decide)).1 (by trivial)).1
  · exact ((((C7_focus_cycling sABC_A).2 (by decide)).2) "A" (by decide) (by decide)).2

/-- Reading an association-dict cons. -/
theorem dget_cons {α : Type} (p : String × α) (rest : List (String × α)) (k : String) :
    dget (p :: rest) k = if p.1 = k then some p.2 else dget rest k := by
  by_cases h : p.1 = k
  · simp [dget, List.find?_cons_of_pos, h]
  · simp [dget, List.find?_cons_of_neg, h]

/-- Writing an absent key appends it. -/
theorem dget_none_dset {α : Type} (d : List (String × α)) (k : String) (v : α)
    (h : dget d k = none) : dset d k v = d ++ [(k, v)] := by
  induction d with
  | nil => rfl
  | cons p rest ih =>
    rw [dget_cons] at h
    by_cases h1 : p.1 = k
    · rw [if_pos h1] at h
      cases h
    · rw [if_neg h1] at h
      unfold dset
      rw [if_neg h1, ih h]
      rfl

/-- Occurrence totals add over dictionary concatenation. -/
theorem occL_append (d1 d2 : List (String × List String)) (n : String) :
    occL (d1 ++ d2) n = occL d1 n + occL d2 n := by
  simp [occL]

/-- Updating the first entry holding a present key trades its old list
for the new one in the occurrence total. -/
theorem occL_dset (d : List (String × List String)) (k : String)
    (v lst : List String) (n : String) (h : dget d k = some lst) :
    occL (dset d k v) n + lst.count n = occL d n + v.count n := by
  induction d with
  | nil => simp [dget] at h
  | cons p rest ih =>
    rw [dget_cons] at h
    by_cases hk : p.1 = k
    · rw [if_pos hk] at h
      cases h
      unfold dset
      rw [if_pos hk]
      simp only [occL, List.map_cons, List.sum_cons]
      omega
    · rw [if_neg hk] at h
      unfold dset
      rw [if_neg hk]
      have hi := ih h
      simp only [occL, List.map_cons, List.sum_cons] at hi ⊢
      omega

/-- Removing the first occurrence of a name from every layer list drops
the total by the number of lists containing it. -/
theorem occL_erase_self (d : List (String × List String)) (nm : String) :
    occL (d.map (fun p => if nm ∈ p.2 then (p.1, p.2.erase nm) else p)) nm +
      (d.map (fun p => if nm ∈ p.2 then 1 else 0)).sum = occL d nm := by
  induction d with
  | nil => rfl
  | cons p rest ih =>
    simp only [occL, List.map_cons, List.sum_cons] at ih ⊢
    by_cases hm : nm ∈ p.2
    · rw [if_pos hm, if_pos hm]
      have hc := List.count_erase_self nm p.2
      have hpos : 0 < p.2.count nm := List.count_pos_iff.mpr hm
      dsimp only
      omega
    · rw [if_neg hm, if_neg hm]
      omega

/-- Erasing one name leaves occurrence totals of other names unchanged. -/
theorem occL_erase_ne (d : List (String × List String)) (nm n : String) (hne : n ≠ nm) :
    occL (d.map (fun p => if nm ∈ p.2 then (p.1, p.2.erase nm) else p)) n = occL d n := by
  induction d with
  | nil => rfl
  | cons p rest ih =>
    simp only [occL, List.map_cons, List.sum_cons] at ih ⊢
    by_cases hm : nm ∈ p.2
    · rw [if_pos hm]
      dsimp only
      rw [List.count_erase_of_ne hne]
      omega
    · rw [if_neg hm]
      omega

/-- If no layer list contains the name, its total is zero. -/
theorem occL_zero_of_no_entry (d : List (String × List String)) (nm : String)
    (h : (d.map (fun p => if nm ∈ p.2 then 1 else 0)).sum = 0) : occL d nm = 0 := by
  induction d with
  | nil => rfl
  | cons p rest ih =>
    simp only [occL, List.map_cons, List.sum_cons] at h ⊢
    by_cases hm : nm ∈ p.2
    · rw [if_pos hm] at h
      omega
    · rw [if_neg hm] at h
      have hc : p.2.count nm = 0 := List.count_eq_zero.mpr hm
      have := ih (by omega)
      simp only [occL] at this
      omega

/-- The un-focus prelude leaves the layer store alone. -/
theorem unfocus_previous_layers (s : UIState) : (unfocus_previous s).layers = s.layers := by
  obtain ⟨els, lys, lo, fn⟩ := s
  unfold unfocus_previous
  cases fn with
  | none => rfl
  | some prev =>
    dsimp only
    split_ifs with h
    · cases els prev <;> rfl
    · rfl

/-- `focus` leaves the layer store alone. -/
theorem focus_layers (nm : Option String) (s : UIState) : (focus nm s).layers = s.layers := by
  unfold focus
  cases nm with
  | none => exact unfocus_previous_layers s
  | some n =>
    dsimp only
    cases hx : (unfocus_previous s).elements n with
    | none => exact unfocus_previous_layers s
    | some ne_ => exact unfocus_previous_layers s

/-- `focus` preserves the layer-membership invariant. -/
theorem focus_LayerInv (nm : Option String) (s : UIState) (h : LayerInv s) :
    LayerInv (focus nm s) := by
  intro n
  unfold occTotal
  rw [focus_layers, focus_elements_isSome]
  exact h n

/-- Lookup skips a prefix in which the key is absent. -/
theorem dget_append_of_none {α : Type} (d1 d2 : List (String × α)) (k : String)
    (h : dget d1 k = none) : dget (d1 ++ d2) k = dget d2 k := by
  unfold dget at h
  cases hf : List.find? (fun p => p.1 == k) d1 with
  | none =>
    unfold dget
    rw [List.find?_append, hf]
    simp [Option.or]
  | some p =>
    rw [hf] at h
    simp at h

/-- C8 counterexample: registering the same name twice (layers `"ui"` and
`"overlay"`) leaves it in BOTH layer lists — a registered name occurring
in two layers, violating the exactly-one-layer invariant. -/
theorem C8_counterexample :
    (c8b.elements "a").isSome = true ∧
    dget c8b.layers "ui" = some ["a"] ∧
    dget c8b.layers "overlay" = some ["a"] ∧
    occTotal c8b "a" = 2 := by
  decide

/-- C8 (amended): the exactly-once invariant — every registered name
occurs exactly once across all layer lists, an unregistered one never —
is preserved by `create_element` when the name is NOT already registered,
and by `remove_element`; `create_element` on an already-registered name
appends a second occurrence and breaks it. -/
theorem C8_amended_layer_invariant (s : UIState) (h : LayerInv s) :
    (∀ (name element_type : String) (layer : Option String) (kwargs : ElemKwargs),
      s.elements name = none →
      LayerInv (create_element name element_type layer kwargs s)) ∧
    (∀ name, LayerInv (remove_element name s)) := by
  constructor
  · intro name element_type layer kwargs hfresh n
    rw [create_element_eq]
    unfold occTotal
    dsimp only
    by_cases hsome : (dget s.layers (layer.getD "ui")).isSome
    · obtain ⟨lst, hlst⟩ := Option.isSome_iff_exists.mp hsome
      rw [if_pos hsome, hlst]
      simp only [Option.getD_some]
      have key := occL_dset s.layers (layer.getD "ui") (lst ++ [name]) lst n hlst
      have h0 := h n
      unfold occTotal at h0
      by_cases hn : n = name
      · subst hn
        rw [hfresh] at h0
        simp only [Option.isSome_none, Bool.false_eq_true, if_false] at h0
        have hcnt : List.count n (lst ++ [n]) = List.count n lst + 1 := by
          simp [List.count_append]
        simp only [fset, if_pos rfl, Option.isSome_some, if_true]
        omega
      · have hcnt : List.count n (lst ++ [name]) = List.count n lst := by
          simp [List.count_append, List.count_singleton, Ne.symm hn]
        simp only [fset, if_neg hn]
        rw [← h0]
        omega
    · have hnone : dget s.layers (layer.getD "ui") = none :=
        Option.not_isSome_iff_eq_none.mp hsome
      rw [if_neg hsome, dget_none_dset _ _ _ hnone]
      have hget : dget (s.layers ++ [(layer.getD "ui", [])]) (layer.getD "ui") = some [] := by
        rw [dget_append_of_none _ _ _ hnone, dget_cons]
        simp
      rw [hget]
      simp only [Option.getD_some, List.nil_append]
      have key := occL_dset (s.layers ++ [(layer.getD "ui", [])])
        (layer.getD "ui") [name] [] n hget
      simp only [List.count_nil] at key
      have happ : occL (s.layers ++ [(layer.getD "ui", [])]) n = occL s.layers n := by
        rw [occL_append]
        simp [occL]
      have h0 := h n
      unfold occTotal at h0
      by_cases hn : n = name
      · subst hn
        rw [hfresh] at h0
        simp only [Option.isSome_none, Bool.false_eq_true, if_false] at h0
        have hcnt : List.count n [n] = 1 := by simp
        simp only [fset, if_pos rfl, Option.isSome_some, if_true]
        omega
      · have hcnt : List.count n [name] = 0 := by
          simp [List.count_singleton, Ne.symm hn]
        simp only [fset, if_neg hn]
        rw [← h0]
        omega
  · intro nm
    rw [remove_element_eq]
    cases hel : s.elements nm with
    | none => exact h
    | some el =>
      dsimp only
      have core : LayerInv
          { s with
            elements := fun k => if k = nm then none else s.elements k
            layers := s.layers.map (fun p => if nm ∈ p.2 then (p.1, p.2.erase nm) else p) } := by
        intro n'
        unfold occTotal
        dsimp only
        by_cases hn : n' = nm
        · rw [if_pos hn]
          simp only [Option.isSome_none, Bool.false_eq_true, if_false]
          subst hn
          have key := occL_erase_self s.layers n'
          have h0 := h n'
          unfold occTotal at h0
          rw [hel] at h0
          simp only [Option.isSome_some, if_true] at h0
          by_cases hK : (s.layers.map (fun p => if n' ∈ p.2 then 1 else 0)).sum = 0
          · have := occL_zero_of_no_entry s.layers n' hK
            omega
          · omega
        · rw [if_neg hn, occL_erase_ne s.layers nm n' hn]
          have h0 := h n'
          unfold occTotal at h0
          exact h0
      split_ifs with hfoc
      · exact focus_LayerInv none _ core
      · exact core

/-- Witness for C8 (amended): the invariant holds after the first, fresh
registration of `"a"`. -/
theorem C8_amended_layer_invariant_witness : LayerInv c8a := by
  have h0 : LayerInv initUI := fun _ => rfl
  exact (C8_amended_layer_invariant initUI h0).1 "a" "UIElement" (some "ui") {} rfl

/-- Writing the same key-value pair twice equals writing it once. -/
theorem fset_fset_self {K V : Type} [DecidableEq K] (t : K → Option V) (k : K) (v : V) :
    fset (fset t k v) k v = fset t k v := by
  funext x
  unfold fset
  split_ifs <;> rfl

/-- Writes at distinct keys commute. -/
theorem fset_comm {K V : Type} [DecidableEq K] (t : K → Option V) (a b : K) (v w : V)
    (h : a ≠ b) : fset (fset t a v) b w = fset (fset t b w) a v := by
  funext x
  unfold fset
  by_cases hb : x = b <;> by_cases ha : x = a
  · exact absurd (ha.symm.trans hb) h
  · simp [ha, hb, h, Ne.symm h]
  · simp [ha, hb, h, Ne.symm h]
  · simp [ha, hb, h, Ne.symm h]

/-- Unfolding one optional assignment off an assignment list. -/
theorem applyOpt_cons {K V : Type} [DecidableEq K] (o : Option (K × V))
    (l : List (Option (K × V))) (t : K → Option V) :
    applyOpt (o :: l) t = applyOpt l (applyOne o t) := rfl

/-- Assignment lists apply left part first. -/
theorem applyOpt_append {K V : Type} [DecidableEq K] (l1 l2 : List (Option (K × V)))
    (t : K → Option V) : applyOpt (l1 ++ l2) t = applyOpt l2 (applyOpt l1 t) := by
  unfold applyOpt
  rw [List.foldl_append]

/-- An assignment list reads back as its last write per key, with the
base dictionary as fallback. -/
theorem applyOpt_eq_lastWrite {K V : Type} [DecidableEq K] (l : List (Option (K × V)))
    (t : K → Option V) (k : K) :
    applyOpt l t k = match lastWrite l k with | some v => some v | none => t k := by
  induction l using List.reverseRecOn with
  | nil => rfl
  | append_singleton l o ih =>
    cases o with
    | none =>
      have h1 : applyOpt (l ++ [none]) t k = applyOpt l t k := by
        rw [applyOpt_append]; rfl
      have h2 : lastWrite (l ++ [(none : Option (K × V))]) k = lastWrite l k := by
        unfold lastWrite; rw [List.foldl_append]; rfl
      rw [h1, h2, ih]
    | some kv =>
      have h1 : applyOpt (l ++ [some kv]) t k = fset (applyOpt l t) kv.1 kv.2 k := by
        rw [applyOpt_append]; rfl
      have h2 : lastWrite (l ++ [some kv]) k =
          if kv.1 = k then some kv.2 else lastWrite l k := by
        unfold lastWrite; rw [List.foldl_append]; rfl
      rw [h1, h2]
      unfold fset
      by_cases hk : k = kv.1
      · simp [hk]
      · rw [if_neg hk, if_neg (fun h => hk h.symm)]
        exact ih

/-- Replaying an assignment list over its own result changes nothing. -/
theorem applyOpt_idem {K V : Type} [DecidableEq K] (l : List (Option (K × V)))
    (t : K → Option V) : applyOpt l (applyOpt l t) = applyOpt l t := by
  funext k
  rw [applyOpt_eq_lastWrite]
  cases h : lastWrite l k with
  | some v =>
    rw [applyOpt_eq_lastWrite, h]
  | none => rfl

/-- A write at a key untouched by an assignment list commutes past it. -/
theorem applyOne_comm {K V : Type} [DecidableEq K] (kv : K × V)
    (l : List (Option (K × V))) (t : K → Option V)
    (h : ∀ o ∈ l, ∀ kv', o = some kv' → kv'.1 ≠ kv.1) :
    applyOne (some kv) (applyOpt l t) = applyOpt l (applyOne (some kv) t) := by
  induction l generalizing t with
  | nil => rfl
  | cons o l ih =>
    rw [applyOpt_cons, applyOpt_cons,
      ih (applyOne o t) (fun o' ho' => h o' (List.mem_cons_of_mem _ ho'))]
    refine congrArg (applyOpt l) ?_
    cases o with
    | none => rfl
    | some kv' =>
      have hne : kv'.1 ≠ kv.1 := h (some kv') (List.mem_cons_self _ _) kv' rfl
      exact fset_comm t kv'.1 kv.1 kv'.2 kv.2 hne

/-- Replaying a pointwise-weakened copy of an assignment list — each
position either dropped or identical — over the original's result changes
nothing, provided the original's written keys are pairwise distinct. -/
theorem applyOpt_idem_dropped {K V : Type} [DecidableEq K] (l1 l2 : List (Option (K × V)))
    (t : K → Option V)
    (hrel : List.Forall₂ (fun o1 o2 => o2 = none ∨ o2 = o1) l1 l2)
    (hnd : l1.Pairwise (fun o1 o2 => ∀ kv1 kv2, o1 = some kv1 → o2 = some kv2 → kv1.1 ≠ kv2.1)) :
    applyOpt l2 (applyOpt l1 t) = applyOpt l1 t := by
  induction hrel generalizing t with
  | nil => rfl
  | @cons o1 o2 l1' l2' hr hrest ih =>
    rw [List.pairwise_cons] at hnd
    rw [applyOpt_cons, applyOpt_cons]
    rcases hr with h2 | h2
    · subst h2
      exact ih (applyOne o1 t) hnd.2
    · rw [h2]
      cases o1 with
      | none => exact ih (applyOne none t) hnd.2
      | some kv =>
        have hc : ∀ o ∈ l1', ∀ kv', o = some kv' → kv'.1 ≠ kv.1 := by
          intro o ho kv' ho' he
          exact (hnd.1 o ho kv kv' rfl ho') he.symm
        rw [applyOne_comm kv l1' (applyOne (some kv) t) hc]
        rw [show applyOne (some kv) (applyOne (some kv) t) = applyOne (some kv) t from by
          unfold applyOne; exact fset_fset_self t kv.1 kv.2]
        exact ih (applyOne (some kv) t) hnd.2

/-- `loadBindEntry` splits into its resolved key half and button half. -/
theorem loadBindEntry_split (e : ConfigBind) (s : IMState) :
    loadBindEntry e s =
      applyBtnDev (resolveBind s.persisted_input_bind e).2 e.callback e.global
        (applyKeyDev (resolveBind s.persisted_input_bind e).1 e.callback e.global s) := by
  unfold loadBindEntry resolveBind applyKeyDev applyBtnDev
  cases hr : s.persisted_input_bind.find? (fun b => b.callback == e.callback) <;> rfl

/-- The key half as one structure update. -/
theorem applyKeyDev_eq (code : Option Int) (cb : Callback) (g : Bool) (s : IMState) :
    applyKeyDev code cb g s =
      { s with
        local_key_down_callbacks :=
          applyOne (if g then none else devAsgn code cb) s.local_key_down_callbacks
        global_key_down_callbacks :=
          applyOne (if g then devAsgn code cb else none) s.global_key_down_callbacks
        persisted_input_bind := s.persisted_input_bind ++ keyRec code cb g } := by
  unfold applyKeyDev devAsgn keyRec bind_key_down applyOne
  cases code with
  | none => cases g <;> simp
  | some k => by_cases hk : (k != 0) = true <;> cases g <;> simp [hk]

/-- The button half as one structure update. -/
theorem applyBtnDev_eq (code : Option Int) (cb : Callback) (g : Bool) (s : IMState) :
    applyBtnDev code cb g s =
      { s with
        local_mouse_down_callbacks :=
          applyOne (if g then none else devAsgn code cb) s.local_mouse_down_callbacks
        global_mouse_down_callbacks :=
          applyOne (if g then devAsgn code cb else none) s.global_mouse_down_callbacks
        persisted_input_bind := s.persisted_input_bind ++ btnRec code cb g } := by
  unfold applyBtnDev devAsgn btnRec bind_mouse_down applyOne
  cases code with
  | none => cases g <;> simp
  | some b => by_cases hb : (b != 0) = true <;> cases g <;> simp [hb]

/-- One `bind` entry of `load_config` as a single structure update:
it applies its two projected assignments and appends its records. -/
theorem loadBindEntry_eq (e : ConfigBind) (s : IMState) :
    loadBindEntry e s =
      { s with
        local_key_down_callbacks :=
          applyOne (projLKD s.persisted_input_bind e) s.local_key_down_callbacks
        global_key_down_callbacks :=
          applyOne (projGKD s.persisted_input_bind e) s.global_key_down_callbacks
        local_mouse_down_callbacks :=
          applyOne (projLMD s.persisted_input_bind e) s.local_mouse_down_callbacks
        global_mouse_down_callbacks :=
          applyOne (projGMD s.persisted_input_bind e) s.global_mouse_down_callbacks
        persisted_input_bind :=
          s.persisted_input_bind ++ entryRecs s.persisted_input_bind e } := by
  rw [loadBindEntry_split, applyKeyDev_eq, applyBtnDev_eq]
  unfold projLKD projGKD projLMD projGMD bindKeyAsgn bindBtnAsgn entryRecs
  dsimp only
  rw [List.append_assoc]

/-- Every record a `bind` entry appends carries that entry's callback. -/
theorem entryRecs_callback (p : List BindRecord) (e : ConfigBind) :
    ∀ r ∈ entryRecs p e, r.callback = e.callback := by
  intro r hr
  unfold entryRecs keyRec btnRec at hr
  rcases List.mem_append.mp hr with h1 | h1
  · cases hres : (resolveBind p e).1 with
    | none => rw [hres] at h1; cases h1
    | some k =>
      rw [hres] at h1
      dsimp only at h1
      split_ifs at h1
      · rw [List.mem_singleton] at h1; subst h1; rfl
      · cases h1
  · cases hres : (resolveBind p e).2 with
    | none => rw [hres] at h1; cases h1
    | some b =>
      rw [hres] at h1
      dsimp only at h1
      split_ifs at h1
      · rw [List.mem_singleton] at h1; subst h1; rfl
      · cases h1

/-- Resolution ignores appended records whose callbacks differ. -/
theorem resolveBind_append (p extra : List BindRecord) (e : ConfigBind)
    (hcb : ∀ r ∈ extra, r.callback ≠ e.callback) :
    resolveBind (p ++ extra) e = resolveBind p e := by
  unfold resolveBind
  rw [List.find?_append]
  cases hf : p.find? (fun b => b.callback == e.callback) with
  | some r => rfl
  | none =>
    have hnone : extra.find? (fun b => b.callback == e.callback) = none := by
      rw [List.find?_eq_none]
      intro r hr
      simp [hcb r hr]
    rw [hnone]
    rfl

/-- Appending callback-foreign records does not change an entry's records. -/
theorem entryRecs_append (p extra : List BindRecord) (e : ConfigBind)
    (hcb : ∀ r ∈ extra, r.callback ≠ e.callback) :
    entryRecs (p ++ extra) e = entryRecs p e := by
  unfold entryRecs
  rw [resolveBind_append p extra e hcb]

/-- Congruence for `concatMap`. -/
theorem concatMap_congr {α β : Type} (f g : α → List β) (l : List α)
    (h : ∀ a ∈ l, f a = g a) : concatMap f l = concatMap g l := by
  induction l with
  | nil => rfl
  | cons a l ih =>
    unfold concatMap
    rw [h a (List.mem_cons_self a l), ih (fun x hx => h x (List.mem_cons_of_mem a hx))]

/-- The whole `bind` loop of `load_config`, for pairwise-distinct entry
callbacks: every entry resolves against the initial persisted list, the
four down-callback tables receive the projected assignment lists, and the
appended records are the per-entry records. -/
theorem bindPhase_eq (es : List ConfigBind) (s : IMState)
    (hnd : es.Pairwise (fun a b => a.callback ≠ b.callback)) :
    bindPhase es s =
      { s with
        local_key_down_callbacks :=
          applyOpt (es.map (projLKD s.persisted_input_bind)) s.local_key_down_callbacks
        global_key_down_callbacks :=
          applyOpt (es.map (projGKD s.persisted_input_bind)) s.global_key_down_callbacks
        local_mouse_down_callbacks :=
          applyOpt (es.map (projLMD s.persisted_input_bind)) s.local_mouse_down_callbacks
        global_mouse_down_callbacks :=
          applyOpt (es.map (projGMD s.persisted_input_bind)) s.global_mouse_down_callbacks
        persisted_input_bind :=
          s.persisted_input_bind ++ concatMap (entryRecs s.persisted_input_bind) es } := by
  induction es generalizing s with
  | nil =>
    unfold bindPhase concatMap
    simp [applyOpt]
  | cons e rest ih =>
    rw [List.pairwise_cons] at hnd
    have hstep : bindPhase (e :: rest) s = bindPhase rest (loadBindEntry e s) := rfl
    rw [hstep, loadBindEntry_eq, ih _ hnd.2]
    dsimp only
    have hcb : ∀ e', e' ∈ rest → ∀ r ∈ entryRecs s.persisted_input_bind e,
        r.callback ≠ e'.callback := by
      intro e' he' r hr
      rw [entryRecs_callback s.persisted_input_bind e r hr]
      exact hnd.1 e' he'
    have hres : ∀ e' ∈ rest,
        resolveBind (s.persisted_input_bind ++ entryRecs s.persisted_input_bind e) e' =
          resolveBind s.persisted_input_bind e' := fun e' he' =>
      resolveBind_append _ _ e' (fun r hr => hcb e' he' r hr)
    have hLKD : rest.map (projLKD (s.persisted_input_bind ++
        entryRecs s.persisted_input_bind e)) = rest.map (projLKD s.persisted_input_bind) :=
      List.map_congr_left (fun e' he' => by
        unfold projLKD bindKeyAsgn
        rw [hres e' he'])
    have hGKD : rest.map (projGKD (s.persisted_input_bind ++
        entryRecs s.persisted_input_bind e)) = rest.map (projGKD s.persisted_input_bind) :=
      List.map_congr_left (fun e' he' => by
        unfold projGKD bindKeyAsgn
        rw [hres e' he'])
    have hLMD : rest.map (projLMD (s.persisted_input_bind ++
        entryRecs s.persisted_input_bind e)) = rest.map (projLMD s.persisted_input_bind) :=
      List.map_congr_left (fun e' he' => by
        unfold projLMD bindBtnAsgn
        rw [hres e' he'])
    have hGMD : rest.map (projGMD (s.persisted_input_bind ++
        entryRecs s.persisted_input_bind e)) = rest.map (projGMD s.persisted_input_bind) :=
      List.map_congr_left (fun e' he' => by
        unfold projGMD bindBtnAsgn
        rw [hres e' he'])
    have hRecs : concatMap (entryRecs (s.persisted_input_bind ++
        entryRecs s.persisted_input_bind e)) rest =
        concatMap (entryRecs s.persisted_input_bind) rest :=
      concatMap_congr _ _ rest (fun e' he' =>
        entryRecs_append _ _ e' (fun r hr => hcb e' he' r hr))
    rw [hLKD, hGKD, hLMD, hGMD, hRecs, List.append_assoc]
    rfl

/-- Members of a `concatMap` come from some list element. -/
theorem mem_concatMap {α β : Type} (f : α → List β) (l : List α) (b : β)
    (h : b ∈ concatMap f l) : ∃ a ∈ l, b ∈ f a := by
  induction l with
  | nil => cases h
  | cons x l ih =>
    unfold concatMap at h
    rcases List.mem_append.mp h with h1 | h1
    · exact ⟨x, List.mem_cons_self x l, h1⟩
    · obtain ⟨a, ha, hb⟩ := ih h1
      exact ⟨a, List.mem_cons_of_mem x ha, hb⟩

/-- With pairwise-distinct callbacks, searching all appended records for
an entry's callback is searching that entry's own records. -/
theorem find?_concatMap_self (p : List BindRecord) (es : List ConfigBind) (e : ConfigBind)
    (hnd : es.Pairwise (fun a b => a.callback ≠ b.callback)) (hmem : e ∈ es) :
    (concatMap (entryRecs p) es).find? (fun b => b.callback == e.callback) =
      (entryRecs p e).find? (fun b => b.callback == e.callback) := by
  induction es with
  | nil => cases hmem
  | cons a rest ih =>
    rw [List.pairwise_cons] at hnd
    unfold concatMap
    rw [List.find?_append]
    rcases List.mem_cons.mp hmem with he | he
    · subst he
      cases hf : (entryRecs p e).find? (fun b => b.callback == e.callback) with
      | some r => rfl
      | none =>
        have hrest : (concatMap (entryRecs p) rest).find?
            (fun b => b.callback == e.callback) = none := by
          rw [List.find?_eq_none]
          intro r hr
          obtain ⟨e', he', hre⟩ := mem_concatMap _ _ _ hr
          simp only [entryRecs_callback p e' r hre, beq_iff_eq]
          exact Ne.symm (hnd.1 e' he')
        rw [hrest]
        rfl
    · have hhead : (entryRecs p a).find? (fun b => b.callback == e.callback) = none := by
        rw [List.find?_eq_none]
        intro r hr
        simp only [entryRecs_callback p a r hr, beq_iff_eq]
        exact hnd.1 e he
      rw [hhead, ih hnd.2 he]
      cases hx : (entryRecs p e).find? (fun b => b.callback == e.callback) <;> rfl

/-- A falsy code never produces an assignment. -/
theorem devAsgn_falsy (code : Option Int) (cb : Callback) (h : truthyCode code = false) :
    devAsgn code cb = none := by
  unfold truthyCode at h
  unfold devAsgn
  cases code with
  | none => rfl
  | some k =>
    dsimp only at h
    simp [h]

/-- A falsy code appends no key record. -/
theorem keyRec_falsy (code : Option Int) (cb : Callback) (g : Bool)
    (h : truthyCode code = false) : keyRec code cb g = [] := by
  unfold truthyCode at h
  unfold keyRec
  cases code with
  | none => rfl
  | some k =>
    dsimp only at h
    simp [h]

/-- A falsy code appends no button record. -/
theorem btnRec_falsy (code : Option Int) (cb : Callback) (g : Bool)
    (h : truthyCode code = false) : btnRec code cb g = [] := by
  unfold truthyCode at h
  unfold btnRec
  cases code with
  | none => rfl
  | some b =>
    dsimp only at h
    simp [h]

/-- For a single-device entry with pairwise-distinct callbacks, the
resolution after the whole `bind` loop yields the same two assignments as
the resolution before it. -/
theorem bindAsgn_stable (p : List BindRecord) (es : List ConfigBind) (e : ConfigBind)
    (hnd : es.Pairwise (fun a b => a.callback ≠ b.callback)) (hmem : e ∈ es)
    (hsd : ¬(truthyCode e.key = true ∧ truthyCode e.button = true)) :
    bindKeyAsgn (p ++ concatMap (entryRecs p) es) e = bindKeyAsgn p e ∧
    bindBtnAsgn (p ++ concatMap (entryRecs p) es) e = bindBtnAsgn p e := by
  unfold bindKeyAsgn bindBtnAsgn resolveBind
  rw [List.find?_append, find?_concatMap_self p es e hnd hmem]
  cases hf : p.find? (fun b => b.callback == e.callback) with
  | some r => exact ⟨rfl, rfl⟩
  | none =>
    have hre : entryRecs p e =
        keyRec e.key e.callback e.global ++ btnRec e.button e.callback e.global := by
      unfold entryRecs resolveBind
      rw [hf]
    rw [hre]
    by_cases hkt : truthyCode e.key = true
    · have hbf : truthyCode e.button = false := by
        cases hbt : truthyCode e.button
        · rfl
        · exact absurd ⟨hkt, hbt⟩ hsd
      cases hek : e.key with
      | none =>
        rw [hek] at hkt
        simp [truthyCode] at hkt
      | some k =>
        rw [hek] at hkt
        have hkr : keyRec (some k) e.callback e.global =
            [{ key := some k, callback := e.callback, global := e.global }] := by
          unfold keyRec
          dsimp only
          rw [if_pos (show (k != 0) = true from hkt)]
        rw [hkr, List.find?_append,
          show List.find? (fun b => b.callback == e.callback)
              [({ key := some k, callback := e.callback, global := e.global } : BindRecord)] =
            some { key := some k, callback := e.callback, global := e.global } from
            List.find?_cons_of_pos _ (by simp)]
        constructor
        · rfl
        · rw [devAsgn_falsy e.button e.callback hbf]
          rfl
    · have hkf : truthyCode e.key = false := by
        cases h : truthyCode e.key
        · rfl
        · exact absurd h hkt
      rw [keyRec_falsy e.key e.callback e.global hkf, List.nil_append]
      by_cases hbt : truthyCode e.button = true
      · cases heb : e.button with
        | none =>
          rw [heb] at hbt
          simp [truthyCode] at hbt
        | some b =>
          rw [heb] at hbt
          have hbr : btnRec (some b) e.callback e.global =
              [{ button := some b, callback := e.callback, global := e.global }] := by
            unfold btnRec
            dsimp only
            rw [if_pos (show (b != 0) = true from hbt)]
          rw [hbr,
            show List.find? (fun b => b.callback == e.callback)
                [({ button := some b, callback := e.callback, global := e.global } : BindRecord)] =
              some { button := some b, callback := e.callback, global := e.global } from
              List.find?_cons_of_pos _ (by simp)]
          constructor
          · rw [devAsgn_falsy e.key e.callback hkf]
            rfl
          · rfl
      · have hbf : truthyCode e.button = false := by
          cases h : truthyCode e.button
          · rfl
          · exact absurd h hbt
        rw [btnRec_falsy e.button e.callback e.global hbf]
        exact ⟨rfl, rfl⟩

/-- A second write at the same key overwrites the first. -/
theorem fset_fset_same {K V : Type} [DecidableEq K] (t : K → Option V) (k : K) (v w : V) :
    fset (fset t k v) k w = fset t k w := by
  funext x
  unfold fset
  split_ifs <;> rfl

/-- A pointwise-trivial conditional update is the identity. -/
theorem ite_self_fun {K V : Type} [DecidableEq K] (t : K → V) (k : K) :
    (fun x => if x = k then t x else t x) = t := by
  funext x
  rw [ite_self]

/-- One `map` entry of `load_config` as a single structure update: the two
projected assignments plus the persisted-map write. -/
theorem loadMapEntry_eq (a : String) (m : MapRecord) (s : IMState) :
    loadMapEntry a m s =
      { s with
        action_to_key := applyOne (projA2K s.persisted_input_map (a, m)) s.action_to_key
        action_to_mouse := applyOne (projA2M s.persisted_input_map (a, m)) s.action_to_mouse
        persisted_input_map := fun x =>
          if x = a then pmWrite (resolveMap s.persisted_input_map a m) (s.persisted_input_map x)
          else s.persisted_input_map x } := by
  obtain ⟨ks, mst, lkd, lku, lmd, lmu, gkd, gku, gmd, gmu, a2k, a2m, pib, pim⟩ := s
  unfold loadMapEntry projA2K projA2M resolveMap pmWrite applyOne
    map_action_to_key map_action_to_mouse
  dsimp only
  cases hpm : pim a with
  | none =>
    dsimp only
    cases hk : m.key <;> cases hm : m.mouse <;> dsimp only <;>
      first
        | rfl
        | (rw [fset_fset_same]; rfl)
        | (congr 1; exact (ite_self_fun pim a).symm)
  | some r =>
    dsimp only
    cases hk : r.key <;> cases hm : r.mouse <;> dsimp only <;>
      first
        | rfl
        | (rw [fset_fset_same]; rfl)
        | (congr 1; exact (ite_self_fun pim a).symm)

/-- Resolving a `map` entry only reads the persisted map at the entry's
action. -/
theorem resolveMap_congr (pm pm' : String → Option MapRecord) (a : String) (m : MapRecord)
    (h : pm' a = pm a) : resolveMap pm' a m = resolveMap pm a m := by
  unfold resolveMap
  rw [h]

/-- `projA2K` only reads the persisted map at the entry's action. -/
theorem projA2K_congr (pm pm' : String → Option MapRecord) (am : String × MapRecord)
    (h : pm' am.1 = pm am.1) : projA2K pm' am = projA2K pm am := by
  unfold projA2K
  rw [resolveMap_congr pm pm' am.1 am.2 h]

/-- `projA2M` only reads the persisted map at the entry's action. -/
theorem projA2M_congr (pm pm' : String → Option MapRecord) (am : String × MapRecord)
    (h : pm' am.1 = pm am.1) : projA2M pm' am = projA2M pm am := by
  unfold projA2M
  rw [resolveMap_congr pm pm' am.1 am.2 h]

/-- The whole `map` loop of `load_config`, for pairwise-distinct actions
(automatic for a Python dict), as the two projected assignment lists
resolved against the initial persisted map, plus the per-action persisted
rewrite. -/
theorem mapPhase_eq (ms : List (String × MapRecord)) (s : IMState)
    (hma : ms.Pairwise (fun x y => x.1 ≠ y.1)) :
    mapPhase ms s =
      { s with
        action_to_key := applyOpt (ms.map (projA2K s.persisted_input_map)) s.action_to_key
        action_to_mouse := applyOpt (ms.map (projA2M s.persisted_input_map)) s.action_to_mouse
        persisted_input_map := fun x =>
          match ms.find? (fun am => am.1 == x) with
          | some am => pmWrite (resolveMap s.persisted_input_map am.1 am.2)
              (s.persisted_input_map x)
          | none => s.persisted_input_map x } := by
  induction ms generalizing s with
  | nil =>
    obtain ⟨ks, mst, lkd, lku, lmd, lmu, gkd, gku, gmd, gmu, a2k, a2m, pib, pim⟩ := s
    rfl
  | cons am rest ih =>
    obtain ⟨a, m⟩ := am
    rw [List.pairwise_cons] at hma
    have hstep : mapPhase ((a, m) :: rest) s = mapPhase rest (loadMapEntry a m s) := rfl
    rw [hstep, loadMapEntry_eq, ih _ hma.2]
    dsimp only
    have hK : rest.map (projA2K (fun x =>
        if x = a then pmWrite (resolveMap s.persisted_input_map a m) (s.persisted_input_map x)
        else s.persisted_input_map x)) = rest.map (projA2K s.persisted_input_map) :=
      List.map_congr_left (fun e he => projA2K_congr _ _ e
        (if_neg (Ne.symm (hma.1 e he))))
    have hM : rest.map (projA2M (fun x =>
        if x = a then pmWrite (resolveMap s.persisted_input_map a m) (s.persisted_input_map x)
        else s.persisted_input_map x)) = rest.map (projA2M s.persisted_input_map) :=
      List.map_congr_left (fun e he => projA2M_congr _ _ e
        (if_neg (Ne.symm (hma.1 e he))))
    rw [hK, hM, List.map_cons, List.map_cons, applyOpt_cons, applyOpt_cons]
    congr 1
    funext x
    by_cases hx : x = a
    · subst hx
      have hhd : ((x, m) :: rest).find? (fun am => am.1 == x) = some (x, m) :=
        List.find?_cons_of_pos _ (by simp)
      have hrest : rest.find? (fun am => am.1 == x) = none := by
        rw [List.find?_eq_none]
        intro am ham
        simp only [beq_iff_eq]
        exact Ne.symm (hma.1 am ham)
      rw [hhd, hrest]
      rw [if_pos rfl]
    · have hhd : ((a, m) :: rest).find? (fun am => am.1 == x) =
          rest.find? (fun am => am.1 == x) :=
        List.find?_cons_of_neg _ (by simp [Ne.symm hx])
      rw [hhd]
      cases hf : rest.find? (fun am => am.1 == x) with
      | none =>
        rw [if_neg hx]
      | some am =>
        have ham : am ∈ rest := List.mem_of_find?_eq_some hf
        rw [if_neg hx]
        show pmWrite (resolveMap (fun x =>
            if x = a then pmWrite (resolveMap s.persisted_input_map a m) (s.persisted_input_map x)
            else s.persisted_input_map x) am.1 am.2) (s.persisted_input_map x) =
          pmWrite (resolveMap s.persisted_input_map am.1 am.2) (s.persisted_input_map x)
        rw [resolveMap_congr s.persisted_input_map _ am.1 am.2
          (if_neg (Ne.symm (hma.1 am ham)))]

/-- With pairwise-distinct actions, searching the `map` entries for a
member entry's action finds that entry. -/
theorem find?_pairwise_fst (l : List (String × MapRecord)) (am : String × MapRecord)
    (hnd : l.Pairwise (fun x y => x.1 ≠ y.1)) (hmem : am ∈ l) :
    l.find? (fun x => x.1 == am.1) = some am := by
  induction l with
  | nil => cases hmem
  | cons x rest ih =>
    rw [List.pairwise_cons] at hnd
    rcases List.mem_cons.mp hmem with he | he
    · subst he
      exact List.find?_cons_of_pos _ (by simp)
    · rw [List.find?_cons_of_neg _ (by simp only [beq_iff_eq]; exact hnd.1 am he)]
      exact ih hnd.2 he

/-- A `projA2K` assignment always writes the entry's own action slot. -/
theorem projA2K_fst (pm : String → Option MapRecord) (am : String × MapRecord)
    (kv : String × Int) (h : projA2K pm am = some kv) : kv.1 = am.1 := by
  unfold projA2K at h
  cases hr : (resolveMap pm am.1 am.2).1 with
  | none =>
    rw [hr] at h
    cases h
  | some k =>
    rw [hr] at h
    injection h with h2
    rw [← h2]

/-- After a `map` entry's own persisted write, re-resolving the entry
yields the same `action_to_mouse` assignment, and an `action_to_key`
assignment that is dropped or unchanged (the persisted mouse write, made
last, wins over the key write). -/
theorem mapAsgn_stable (pm0 pm1 : String → Option MapRecord) (am : String × MapRecord)
    (h1 : pm1 am.1 = pmWrite (resolveMap pm0 am.1 am.2) (pm0 am.1)) :
    projA2M pm1 am = projA2M pm0 am ∧
    (projA2K pm1 am = none ∨ projA2K pm1 am = projA2K pm0 am) := by
  obtain ⟨a, m⟩ := am
  dsimp only at h1
  cases hp : pm0 a with
  | none =>
    cases hm : m.mouse with
    | some b =>
      have h2 : pm1 a = some { key := none, mouse := some b } := by
        rw [h1]
        simp only [pmWrite, resolveMap, hp, hm]
      refine ⟨?_, Or.inl ?_⟩ <;> simp only [projA2K, projA2M, resolveMap, h2, hp, hm]
    | none =>
      cases hk : m.key with
      | some k =>
        have h2 : pm1 a = some { key := some k, mouse := none } := by
          rw [h1]
          simp only [pmWrite, resolveMap, hp, hm, hk]
        refine ⟨?_, Or.inr ?_⟩ <;> simp only [projA2K, projA2M, resolveMap, h2, hp, hm, hk]
      | none =>
        have h2 : pm1 a = none := by
          rw [h1]
          simp only [pmWrite, resolveMap, hp, hm, hk]
        refine ⟨?_, Or.inl ?_⟩ <;> simp only [projA2K, projA2M, resolveMap, h2, hp, hm, hk]
  | some r =>
    cases hm : r.mouse with
    | some b =>
      have h2 : pm1 a = some { key := none, mouse := some b } := by
        rw [h1]
        simp only [pmWrite, resolveMap, hp, hm]
      refine ⟨?_, Or.inl ?_⟩ <;> simp only [projA2K, projA2M, resolveMap, h2, hp, hm]
    | none =>
      cases hk : r.key with
      | some k =>
        have h2 : pm1 a = some { key := some k, mouse := none } := by
          rw [h1]
          simp only [pmWrite, resolveMap, hp, hm, hk]
        refine ⟨?_, Or.inr ?_⟩ <;> simp only [projA2K, projA2M, resolveMap, h2, hp, hm, hk]
      | none =>
        have h2 : pm1 a = some r := by
          rw [h1]
          simp only [pmWrite, resolveMap, hp, hm, hk]
        refine ⟨?_, Or.inl ?_⟩ <;> simp only [projA2K, projA2M, resolveMap, h2, hp, hm, hk]

/-- Mapping two pointwise-related functions over one list yields
`Forall₂`-related lists. -/
theorem forall₂_map_same {α β γ : Type} (R : β → γ → Prop) (f : α → β) (g : α → γ)
    (l : List α) (h : ∀ a ∈ l, R (f a) (g a)) : List.Forall₂ R (l.map f) (l.map g) := by
  induction l with
  | nil => exact List.Forall₂.nil
  | cons a l ih =>
    exact List.Forall₂.cons (h a (List.mem_cons_self a l))
      (ih (fun x hx => h x (List.mem_cons_of_mem a hx)))

/-- Replaying the `action_to_mouse` assignments against the once-loaded
persisted map changes nothing. -/
theorem mapPhase_stable_a2m (ms : List (String × MapRecord))
    (pm0 pm1 : String → Option MapRecord) (t : PyVal → Option PyVal)
    (h1 : ∀ am ∈ ms, pm1 am.1 = pmWrite (resolveMap pm0 am.1 am.2) (pm0 am.1)) :
    applyOpt (ms.map (projA2M pm1)) (applyOpt (ms.map (projA2M pm0)) t) =
      applyOpt (ms.map (projA2M pm0)) t := by
  rw [List.map_congr_left (fun am ham => (mapAsgn_stable pm0 pm1 am (h1 am ham)).1)]
  exact applyOpt_idem _ _

/-- Replaying the `action_to_key` assignments against the once-loaded
persisted map changes nothing: each replayed assignment is dropped or
repeats the original, and distinct actions write distinct slots. -/
theorem mapPhase_stable_a2k (ms : List (String × MapRecord))
    (pm0 pm1 : String → Option MapRecord) (t : String → Option Int)
    (hma : ms.Pairwise (fun x y => x.1 ≠ y.1))
    (h1 : ∀ am ∈ ms, pm1 am.1 = pmWrite (resolveMap pm0 am.1 am.2) (pm0 am.1)) :
    applyOpt (ms.map (projA2K pm1)) (applyOpt (ms.map (projA2K pm0)) t) =
      applyOpt (ms.map (projA2K pm0)) t := by
  apply applyOpt_idem_dropped
  · exact forall₂_map_same _ _ _ ms (fun am ham => (mapAsgn_stable pm0 pm1 am (h1 am ham)).2)
  · rw [List.pairwise_map]
    refine hma.imp ?_
    intro x y hxy kv1 kv2 hk1 hk2
    rw [projA2K_fst pm0 x kv1 hk1, projA2K_fst pm0 y kv2 hk2]
    exact hxy

/-- Replaying one callback table's `bind` assignments against the
once-extended persisted list changes nothing, given per-entry stability. -/
theorem bindPhase_stable_tbl (es : List ConfigBind) (p0 p1 : List BindRecord)
    (proj : List BindRecord → ConfigBind → Option (Int × Callback)) (t : Int → Option Callback)
    (hproj : ∀ e ∈ es, proj p1 e = proj p0 e) :
    applyOpt (es.map (proj p1)) (applyOpt (es.map (proj p0)) t) =
      applyOpt (es.map (proj p0)) t := by
  rw [List.map_congr_left hproj]
  exact applyOpt_idem _ _

/-- C3 (amended): `load_config` applied twice with the same config is
idempotent on the eight callback tables and the two action maps, provided
the config's bind entries carry pairwise-distinct callbacks, each bind
entry names at most one truthy device code, and the map actions are
pairwise distinct (automatic for a Python dict). -/
theorem C3_amended_reload_idempotent (c : Config) (s : IMState)
    (hbc : c.bind.Pairwise (fun a b => a.callback ≠ b.callback))
    (hsd : ∀ e ∈ c.bind, ¬(truthyCode e.key = true ∧ truthyCode e.button = true))
    (hma : c.map.Pairwise (fun x y => x.1 ≠ y.1)) :
    tablesOf (load_config (some c) (load_config (some c) s)) =
      tablesOf (load_config (some c) s) := by
  have hLC : ∀ t : IMState, load_config (some c) t = mapPhase c.map (bindPhase c.bind t) :=
    fun t => rfl
  have hstab : ∀ e ∈ c.bind,
      bindKeyAsgn (s.persisted_input_bind ++
        concatMap (entryRecs s.persisted_input_bind) c.bind) e =
        bindKeyAsgn s.persisted_input_bind e ∧
      bindBtnAsgn (s.persisted_input_bind ++
        concatMap (entryRecs s.persisted_input_bind) c.bind) e =
        bindBtnAsgn s.persisted_input_bind e :=
    fun e he => bindAsgn_stable s.persisted_input_bind c.bind e hbc he (hsd e he)
  have hpm1 : ∀ am ∈ c.map,
      (fun x => match c.map.find? (fun am => am.1 == x) with
        | some am => pmWrite (resolveMap s.persisted_input_map am.1 am.2)
            (s.persisted_input_map x)
        | none => s.persisted_input_map x) am.1 =
      pmWrite (resolveMap s.persisted_input_map am.1 am.2) (s.persisted_input_map am.1) := by
    intro am ham
    dsimp only
    rw [find?_pairwise_fst c.map am hma ham]
  rw [hLC, hLC]
  rw [bindPhase_eq c.bind s hbc]
  rw [mapPhase_eq c.map _ hma]
  try dsimp only
  rw [bindPhase_eq c.bind _ hbc]
  try dsimp only
  rw [mapPhase_eq c.map _ hma]
  try dsimp only
  unfold tablesOf
  try dsimp only
  simp only [IMTables.mk.injEq]
  refine ⟨?_, trivial, ?_, trivial, ?_, trivial, ?_, trivial, ?_, ?_⟩
  · exact bindPhase_stable_tbl c.bind _ _ projLKD _
      (fun e he => by unfold projLKD; rw [(hstab e he).1])
  · exact bindPhase_stable_tbl c.bind _ _ projLMD _
      (fun e he => by unfold projLMD; rw [(hstab e he).2])
  · exact bindPhase_stable_tbl c.bind _ _ projGKD _
      (fun e he => by unfold projGKD; rw [(hstab e he).1])
  · exact bindPhase_stable_tbl c.bind _ _ projGMD _
      (fun e he => by unfold projGMD; rw [(hstab e he).2])
  · exact mapPhase_stable_a2k c.map s.persisted_input_map _ s.action_to_key hma hpm1
  · exact mapPhase_stable_a2m c.map s.persisted_input_map _ s.action_to_mouse hpm1

/-- C3 counterexample: with `c3cfg` — a button-only entry for `cbA`
followed by a two-device entry for `cbB` on the same button — the first
`load_config` leaves `cbB` on mouse button 7, but the second leaves
`cbA` there: the two-device entry's persisted records split across
callbacks, so the replay resolves differently. -/
theorem C3_counterexample :
    (load_config (some c3cfg) initIM).local_mouse_down_callbacks 7 = some cbB ∧
    (load_config (some c3cfg) (load_config (some c3cfg) initIM)).local_mouse_down_callbacks 7 =
      some cbA ∧
    cbA ≠ cbB := by
  refine ⟨by decide, by decide, by decide⟩

/-- C3 witness: the amended idempotence theorem applied to the concrete
single-device config `c3wcfg` from the fresh state. -/
theorem C3_amended_reload_idempotent_witness :
    (c3wcfg.bind.Pairwise (fun a b => a.callback ≠ b.callback) ∧
     (∀ e ∈ c3wcfg.bind, ¬(truthyCode e.key = true ∧ truthyCode e.button = true)) ∧
     c3wcfg.map.Pairwise (fun x y => x.1 ≠ y.1)) ∧
    tablesOf (load_config (some c3wcfg) (load_config (some c3wcfg) initIM)) =
      tablesOf (load_config (some c3wcfg) initIM) :=
  ⟨⟨by simp [c3wcfg], by decide, by simp [c3wcfg]⟩,
   C3_amended_reload_idempotent c3wcfg initIM (by simp [c3wcfg]) (by decide)
     (by simp [c3wcfg])⟩
